import Mathlib

/-!
Verification development for the image certification/verification pipeline:
JPEG/PNG certification embedding and extraction, metadata stripping, CRC32,
the certificate model's Distinguished Name formatting, trust-store
validation, and the trust verifier's verdict construction.

Byte buffers are modelled as `List Nat` (each entry a byte value 0..255, as
stored in a `Uint8Array`).  Out-of-bounds reads in the JavaScript source
yield `undefined`, which every numeric context in the modelled code coerces
to 0 (`undefined << k` is `0`, `String.fromCharCode(undefined)` is the NUL
character); `byteAt` therefore returns 0 out of bounds.  JavaScript bitwise
operators produce signed 32-bit results; wherever a signed value can escape
(PNG chunk-length fields) the model converts through `int32OfNat`, and
wherever both operands stay below 2^31 the `Nat` operation agrees with the
JavaScript one.  The platform primitives `JSON.stringify` / `JSON.parse`
are external to the modelled code and are passed in as an abstract
serialiser `stringify : α → List Nat` and parser `parse : List Nat →
Option α` (`none` models a caught `JSON.parse` exception).
-/

/-- Byte read `u[i]` on a `Uint8Array`: 0 when out of bounds (the
`undefined` result coerces to 0 in all numeric contexts of the source). -/
def byteAt (b : List Nat) (i : Nat) : Nat := b.getD i 0

/-- Byte read at a possibly negative (JavaScript) index. -/
def byteAtI (b : List Nat) (i : Int) : Nat :=
  if 0 ≤ i then byteAt b i.toNat else 0

/-- `TypedArray.prototype.slice(s, e)` semantics: negative indices count
from the end, and both endpoints clamp into `[0, length]`. -/
def jsSlice (b : List Nat) (s e : Int) : List Nat :=
  let n : Int := b.length
  let s' : Int := if s < 0 then max (n + s) 0 else min s n
  let e' : Int := if e < 0 then max (n + e) 0 else min e n
  if e' ≤ s' then [] else (b.drop s'.toNat).take (e' - s').toNat

/-- Reinterpret an unsigned value `v < 2^32` as a signed 32-bit integer,
as JavaScript bitwise operators do. -/
def int32OfNat (v : Nat) : Int :=
  if v < 2 ^ 31 then (v : Int) else (v : Int) - 2 ^ 32

namespace JPEGEmbedder

/-- The 8 ASCII bytes of the `SIGNATURE` constant `"IMGTRUST"`. -/
def sigBytes : List Nat := [0x49, 0x4D, 0x47, 0x54, 0x52, 0x55, 0x53, 0x54]

/-- `isValidJPEG`: at least two bytes and they are the SOI marker pair. -/
def isValidJPEG (b : List Nat) : Bool :=
  decide (2 ≤ b.length) && (byteAt b 0 == 0xFF) && (byteAt b 1 == 0xD8)

/-- `createAPP15Segment`: marker pair `FF EF`, big-endian 16-bit segment
length, the signature tag, then the payload bytes.  The allocated size
`segmentLength + 2` equals `4 + 8 + certBytes.length` exactly. -/
def createAPP15Segment (certBytes : List Nat) (segmentLength : Nat) : List Nat :=
  0xFF :: 0xEF :: ((segmentLength >>> 8) &&& 0xFF) :: (segmentLength &&& 0xFF) ::
    (sigBytes ++ certBytes)

/-- `insertSegment`: `slice(0,2) ++ segment ++ slice(2)`.  (The source
builds a pre-sized array and `set`s the three slices at offsets `0`, `2`
and `2 + segment.length`; for `2 ≤ b.length` — guaranteed by the
`isValidJPEG` guard at the only call site — that construction equals this
concatenation.) -/
def insertSegment (b seg : List Nat) : List Nat :=
  b.take 2 ++ seg ++ b.drop 2

/-- `embedCertification`: validate, serialise, size-check against the
16-bit segment-length ceiling, then splice the APP15 segment in right
after the SOI marker. -/
def embedCertification (stringify : α → List Nat) (b : List Nat) (p : α) :
    Except String (List Nat) :=
  if !isValidJPEG b then .error "Invalid JPEG file"
  else
    let certBytes := stringify p
    let segmentLength := certBytes.length + sigBytes.length + 2
    if segmentLength > 65535 then .error "Certification data too large for JPEG segment"
    else .ok (insertSegment b (createAPP15Segment certBytes segmentLength))

/-- The scan loop of `extractCertification`, phrased on the suffix
`s = u.drop offset` of the buffer (the loop guard `offset < u.length - 4`
is `4 < s.length`, and `offset++` recurses on the tail).  On a marker
match it reads the big-endian segment length, compares the 8 decoded
bytes after the length field with the signature tag, and on a tag match
JSON-parses the `segmentLength - 10` bytes after the tag, returning
`none` from the `catch` on a parse failure (`dataLength` can be
negative, in which case the JavaScript slice is empty). -/
def extractLoop (parse : List Nat → Option α) : List Nat → Option α
  | [] => none
  | a :: rest =>
    let s := a :: rest
    if 4 < s.length then
      if byteAt s 0 == 0xFF && byteAt s 1 == 0xEF then
        let segmentLength := (byteAt s 2 <<< 8) ||| byteAt s 3
        if (s.drop 4).take sigBytes.length == sigBytes then
          let dataLength : Int := (segmentLength : Int) - sigBytes.length - 2
          parse ((s.drop (4 + sigBytes.length)).take dataLength.toNat)
        else extractLoop parse rest
      else extractLoop parse rest
    else none

/-- `extractCertification`: `null` unless the buffer is a JPEG, else scan
from offset 2 for an APP15 segment carrying the `IMGTRUST` tag. -/
def extractCertification (parse : List Nat → Option α) (b : List Nat) : Option α :=
  if !isValidJPEG b then none
  else extractLoop parse (b.drop 2)

end JPEGEmbedder

namespace PNGEmbedder

/-- The `PNG_SIGNATURE` constant. -/
def pngSignature : List Nat := [0x89, 0x50, 0x4E, 0x47, 0x0D, 0x0A, 0x1A, 0x0A]

/-- The 4 ASCII bytes of the custom `CHUNK_TYPE` constant `"tRST"`. -/
def trstBytes : List Nat := [0x74, 0x52, 0x53, 0x54]

/-- The 4 ASCII bytes of the `IEND` chunk type. -/
def iendBytes : List Nat := [0x49, 0x45, 0x4E, 0x44]

/-- `isValidPNG`: at least 8 bytes and they equal the PNG signature. -/
def isValidPNG (b : List Nat) : Bool :=
  decide (8 ≤ b.length) &&
    (List.range 8).all fun i => byteAt b i == byteAt pngSignature i

/-- The scan of `findIENDChunk`, phrased on the suffix `s = u.drop i` (the
loop guard `i < u.length - 8` is `8 < s.length`).  It is a raw byte scan:
it reports the first position `i` whose bytes `i+4 .. i+7` spell `IEND`,
chunk-aligned or not. -/
def findIENDFrom : List Nat → Nat → Option Nat
  | [], _ => none
  | a :: rest, i =>
    let s := a :: rest
    if 8 < s.length then
      if byteAt s 4 == 0x49 && byteAt s 5 == 0x45 &&
         byteAt s 6 == 0x4E && byteAt s 7 == 0x44 then some i
      else findIENDFrom rest (i + 1)
    else none

/-- `findIENDChunk` starts the scan at offset 8 (the source's `-1` result
is `none`). -/
def findIENDChunk (b : List Nat) : Option Nat :=
  findIENDFrom (b.drop 8) 8

/-- One round of the CRC table construction's inner loop. -/
def crcStep (c : Nat) : Nat :=
  if c &&& 1 == 1 then 0xEDB88320 ^^^ (c >>> 1) else c >>> 1

/-- `getCRCTable`: entry `n` applies `crcStep` eight times to `n`.  (The
source caches the table in a static field; the cached value always equals
this pure construction.) -/
def getCRCTable : List Nat :=
  (List.range 256).map fun n => (List.range 8).foldl (fun c _ => crcStep c) n

/-- `calculateCRC32`: table-driven CRC over the data bytes, initial and
final XOR `0xFFFFFFFF`.  All intermediate values stay below `2^32`, so
the `Nat` operations agree bitwise with the JavaScript signed-32-bit ones
and the final `>>> 0` is the identity. -/
def calculateCRC32 (data : List Nat) : Nat :=
  (data.foldl
    (fun crc b => byteAt getCRCTable ((crc ^^^ b) &&& 0xFF) ^^^ (crc >>> 8))
    0xFFFFFFFF) ^^^ 0xFFFFFFFF

/-- Big-endian 4-byte encoding as written in the source
(`(n >> 24) & 0xFF`, ...). -/
def be32Bytes (n : Nat) : List Nat :=
  [(n >>> 24) &&& 0xFF, (n >>> 16) &&& 0xFF, (n >>> 8) &&& 0xFF, n &&& 0xFF]

/-- `createTrustChunk`: 4-byte big-endian length, the `tRST` type tag, the
payload bytes, then the CRC32 of `chunk.slice(4, 8 + length)`, i.e. of
type tag ++ payload. -/
def createTrustChunk (certBytes : List Nat) : List Nat :=
  be32Bytes certBytes.length ++ trstBytes ++ certBytes ++
    be32Bytes (calculateCRC32 (trstBytes ++ certBytes))

/-- `insertChunk`: `slice(0, position) ++ chunk ++ slice(position)` (the
source's pre-sized array with three `set`s equals this concatenation for
`position ≤ b.length`, which `findIENDChunk` guarantees). -/
def insertChunk (b chunk : List Nat) (position : Nat) : List Nat :=
  b.take position ++ chunk ++ b.drop position

/-- `embedCertification`: validate the signature, locate the IEND chunk by
byte scan, size-check the payload against `2147483647`, and splice the
trust chunk in at the found position. -/
def embedCertification (stringify : α → List Nat) (b : List Nat) (p : α) :
    Except String (List Nat) :=
  if !isValidPNG b then .error "Invalid PNG file"
  else
    match findIENDChunk b with
    | none => .error "IEND chunk not found in PNG"
    | some iendPosition =>
      let certBytes := stringify p
      if certBytes.length > 2147483647 then .error "Certification data too large for PNG chunk"
      else .ok (insertChunk b (createTrustChunk certBytes) iendPosition)

/-- The signed 32-bit chunk-length read
`(u[o] << 24) | (u[o+1] << 16) | (u[o+2] << 8) | u[o+3]`: the JavaScript
`<<`/`|` operators make this a signed 32-bit value. -/
def readI32 (b : List Nat) (o : Int) : Int :=
  int32OfNat ((byteAtI b o <<< 24) ||| (byteAtI b (o + 1) <<< 16) |||
    (byteAtI b (o + 2) <<< 8) ||| byteAtI b (o + 3))

/-- The 4 chunk-type bytes at `o+4 .. o+7` (the source compares
`String.fromCharCode` of them against a 4-character ASCII constant, which
holds iff the raw bytes are equal). -/
def chunkTypeAt (b : List Nat) (o : Int) : List Nat :=
  [byteAtI b (o + 4), byteAtI b (o + 5), byteAtI b (o + 6), byteAtI b (o + 7)]

/-- The chunk walk of `extractCertification`.  `offset` is an `Int`: a
corrupt negative length field can move it backwards (the JavaScript loop
can even fail to terminate, e.g. when a non-`tRST` chunk's length field
decodes to `-12`); `fuel` bounds the modelled iterations.  On every input
whose walk advances by at least 12 bytes per step — all inputs considered
in this development — `b.length + 1` iterations are enough, and the model
agrees with the source. -/
def extractLoop (parse : List Nat → Option α) (b : List Nat) :
    Nat → Int → Option α
  | 0, _ => none
  | fuel + 1, offset =>
    if offset < (b.length : Int) - 12 then
      let chunkLength := readI32 b offset
      if chunkTypeAt b offset == trstBytes then
        parse (jsSlice b (offset + 8) (offset + 8 + chunkLength))
      else extractLoop parse b fuel (offset + chunkLength + 12)
    else none

/-- `extractCertification`: `null` unless the buffer is a PNG, else walk
the chunk stream from offset 8 looking for the `tRST` chunk. -/
def extractCertification (parse : List Nat → Option α) (b : List Nat) : Option α :=
  if !isValidPNG b then none
  else extractLoop parse b (b.length + 1) 8

end PNGEmbedder

namespace WebCryptoUtils

/-- The marker-retention test of `stripJPEGMetadata`: SOI/EOI, the SOF
range `C0..CF` except `C4`/`CC`, then DHT (`C4`), DQT (`DB`) and SOS
(`DA`), exactly as the source's boolean condition reads. -/
def isKeepMarker (m : Nat) : Bool :=
  m == 0xD8 || m == 0xD9 ||
  (0xC0 ≤ m && m ≤ 0xCF && m != 0xC4 && m != 0xCC) ||
  m == 0xC4 || m == 0xDB || m == 0xDA

/-- The marker walk of `stripJPEGMetadata`, phrased on the suffix
`s = u.drop i` (the guard `i < u.length - 1` is `1 < s.length`; the
enclosing buffer is not otherwise consulted, since all reads and the
`Math.min` copy clamp coincide with `take`/`drop` on the suffix).  Each
iteration advances `i` by at least 1, so `s.length` iterations always
suffice; `fuel` makes the recursion structural.  Returns the bytes the
loop pushes from this point on. -/
def stripJPEGLoop : Nat → List Nat → List Nat
  | 0, _ => []
  | fuel + 1, s =>
    if 1 < s.length then
      if byteAt s 0 == 0xFF then
        let marker := byteAt s 1
        if isKeepMarker marker then
          if marker == 0xDA then s
          else
            let kept := [byteAt s 0, byteAt s 1]
            if marker != 0xD8 && marker != 0xD9 then
              if 4 ≤ s.length then
                let len := (byteAt s 2 <<< 8) ||| byteAt s 3
                kept ++ (s.drop 2).take len ++ stripJPEGLoop fuel ((s.drop 2).drop len)
              else kept
            else kept ++ stripJPEGLoop fuel (s.drop 2)
        else
          if 4 ≤ s.length then
            let len := (byteAt s 2 <<< 8) ||| byteAt s 3
            stripJPEGLoop fuel ((s.drop 2).drop len)
          else []
      else stripJPEGLoop fuel (s.drop 1)
    else []

/-- `stripJPEGMetadata`: push the first two bytes unconditionally, then
walk the marker stream from offset 2. -/
def stripJPEGMetadata (b : List Nat) : List Nat :=
  byteAt b 0 :: byteAt b 1 :: stripJPEGLoop (b.length + 1) (b.drop 2)

/-- The critical-chunk test of `stripPNGMetadata` (`IHDR`, `PLTE`,
`IDAT`, `IEND`), on the raw type bytes. -/
def isCriticalChunk (t : List Nat) : Bool :=
  t == [0x49, 0x48, 0x44, 0x52] || t == [0x50, 0x4C, 0x54, 0x45] ||
  t == [0x49, 0x44, 0x41, 0x54] || t == PNGEmbedder.iendBytes

/-- The chunk walk of `stripPNGMetadata`, phrased on the suffix
`s = u.drop i` (guard `i < u.length - 12` is `12 < s.length`, the dead
guard `i + 8 > u.length` is `s.length < 8`).  `total` is the whole
buffer's length, used by the source's safety check
`chunkLength > uint8Array.length`.  The copy clamp
`Math.min(i + chunkLength + 12, u.length)` is `take` on the suffix, and a
negative `chunkLength + 12` copies nothing (`Int.toNat` is 0).  The
source loop either breaks in the same iteration that read a negative
length, or advances by at least 12 bytes, so it always terminates and
`s.length` iterations suffice; `fuel` makes the recursion structural. -/
def stripPNGWalk (total : Nat) : Nat → List Nat → List Nat
  | 0, _ => []
  | fuel + 1, s =>
    if 12 < s.length then
      if s.length < 8 then []
      else
        let chunkLength := PNGEmbedder.readI32 s 0
        let copied :=
          if isCriticalChunk (PNGEmbedder.chunkTypeAt s 0) then
            s.take (chunkLength + 12).toNat
          else []
        if chunkLength < 0 ∨ (total : Int) < chunkLength then copied
        else copied ++ stripPNGWalk total fuel (s.drop (chunkLength.toNat + 12))
    else []

/-- `stripPNGMetadata`: push the first 8 bytes unconditionally, then walk
the chunk stream from offset 8. -/
def stripPNGMetadata (b : List Nat) : List Nat :=
  (List.range 8).map (byteAt b) ++ stripPNGWalk b.length (b.length + 1) (b.drop 8)

end WebCryptoUtils

/-- JavaScript `a || b` on nullable strings: `null`, `undefined` and the
empty string are falsy. -/
def jsOrStr (a b : Option String) : Option String :=
  match a with
  | some s => if s = "" then b else some s
  | none => b

/-- JavaScript `a || d` with a string default. -/
def jsOrDefault (a : Option String) (d : String) : String :=
  match jsOrStr a (some d) with
  | some s => s
  | none => d

/-- JavaScript `Array.prototype.join(sep)`. -/
def joinSep (sep : String) : List String → String
  | [] => ""
  | [a] => a
  | a :: rest => a ++ sep ++ joinSep sep rest

namespace X509Certificate

/-- The free-form input record of `formatDistinguishedName` (absent
object fields are `none`). -/
structure SubjectInfo where
  name : Option String := none
  commonName : Option String := none
  organization : Option String := none
  department : Option String := none
  city : Option String := none
  state : Option String := none
  country : Option String := none
  email : Option String := none

/-- The produced Distinguished Name record: the `commonName` field is
always a string (the `'Unknown'` default), the others are nullable, and
`string` is the canonical joined form. -/
structure DistinguishedName where
  commonName : String
  organizationName : Option String
  organizationalUnitName : Option String
  localityName : Option String
  stateOrProvinceName : Option String
  countryName : Option String
  emailAddress : Option String
  string : String

/-- `getDNAbbreviation`'s fixed table (unknown keys map to themselves). -/
def getDNAbbreviation (key : String) : String :=
  if key = "commonName" then "CN"
  else if key = "organizationName" then "O"
  else if key = "organizationalUnitName" then "OU"
  else if key = "localityName" then "L"
  else if key = "stateOrProvinceName" then "ST"
  else if key = "countryName" then "C"
  else if key = "emailAddress" then "E"
  else key

/-- The ordered `Object.entries(dn)` list of `formatDistinguishedName`
(insertion order of the object literal). -/
def dnEntries (cn : String) (info : SubjectInfo) : List (String × Option String) :=
  [("commonName", some cn),
   ("organizationName", jsOrStr info.organization none),
   ("organizationalUnitName", jsOrStr info.department none),
   ("localityName", jsOrStr info.city none),
   ("stateOrProvinceName", jsOrStr info.state none),
   ("countryName", jsOrStr info.country none),
   ("emailAddress", jsOrStr info.email none)]

/-- `formatDistinguishedName`: map the free-form fields onto the fixed DN
field set (`info.name || info.commonName || 'Unknown'` for the common
name, `info.x || null` for the rest), then join the non-null fields as
`ABBREV=value` in insertion order, comma-separated. -/
def formatDistinguishedName (info : SubjectInfo) : DistinguishedName :=
  let cn := jsOrDefault (jsOrStr info.name info.commonName) "Unknown"
  let entries := dnEntries cn info
  let dnString := joinSep ", "
    ((entries.filter fun e => e.2.isSome).map
      fun e => getDNAbbreviation e.1 ++ "=" ++ e.2.getD "")
  { commonName := cn
    organizationName := jsOrStr info.organization none
    organizationalUnitName := jsOrStr info.department none
    localityName := jsOrStr info.city none
    stateOrProvinceName := jsOrStr info.state none
    countryName := jsOrStr info.country none
    emailAddress := jsOrStr info.email none
    string := dnString }

end X509Certificate

namespace PEMParser

/-- The projection `getCertificateInfo` produces for a certificate, as
consumed by `validateAgainstTrustStore`: `subject`/`issuer`/
`serialNumber` are the (defaulted) display strings, `validFrom`/
`validTo` the validity bounds as epoch milliseconds (the source stores
ISO strings and compares them through `new Date`, whose ordering is the
numeric one), and the optional SHA-256 fingerprint. -/
structure CertInfo where
  subject : String
  issuer : String
  serialNumber : String
  validFrom : Option Int := none
  validTo : Option Int := none
  fingerprintSha256 : Option String := none

/-- The verdict object of `validateAgainstTrustStore`; fields that a
given return site does not mention are absent in JavaScript, i.e. falsy
(`false` / `none` here). -/
structure TrustValidation where
  valid : Bool
  reason : Option String := none
  expired : Bool := false
  notYetValid : Bool := false
  untrusted : Bool := false
  trustedBy : Option String := none
  trustChain : List String := []

/-- The trust-store search of `validateAgainstTrustStore`: the first
entry whose subject equals the certificate's issuer is a chain match;
otherwise identical serial number and identical (possibly both absent)
SHA-256 fingerprint is a direct self-signed match; no entry ⇒ the
untrusted verdict. -/
def searchTrustStore (ci : CertInfo) : List CertInfo → TrustValidation
  | [] =>
    { valid := false, reason := some "Certificate not found in trust store",
      untrusted := true }
  | t :: rest =>
    if t.subject == ci.issuer then
      { valid := true, trustedBy := some t.subject,
        trustChain := [ci.subject, t.subject] }
    else if t.serialNumber == ci.serialNumber &&
        t.fingerprintSha256 == ci.fingerprintSha256 then
      { valid := true, trustedBy := some "Direct trust",
        trustChain := [ci.subject] }
    else searchTrustStore ci rest

/-- `validateAgainstTrustStore` at current time `now` (epoch ms): an
expired certificate returns immediately with the `expired` verdict, then
a not-yet-valid one with the `notYetValid` verdict, then the trust-store
search decides. -/
def validateAgainstTrustStore (ci : CertInfo) (trustStore : List CertInfo)
    (now : Int) : TrustValidation :=
  let afterExpiry :=
    match ci.validFrom with
    | some validFrom =>
      if now < validFrom then
        some { valid := false, reason := some "Certificate is not yet valid",
               notYetValid := true : TrustValidation }
      else none
    | none => none
  match ci.validTo with
  | some validTo =>
    if now > validTo then
      { valid := false, reason := some "Certificate has expired", expired := true }
    else match afterExpiry with
      | some r => r
      | none => searchTrustStore ci trustStore
  | none =>
    match afterExpiry with
    | some r => r
    | none => searchTrustStore ci trustStore

end PEMParser

namespace TrustVerifier

/-- The certification payload shape the verifier reads (fields the
adobe-mock-client embeds); `signature` is a raw byte array when present. -/
structure CertData where
  certFingerprint : Option String := none
  signature : Option (List Nat) := none
  timestamp : Option String := none
  description : Option String := none

/-- A trust-store entry as the verifier consumes it: the stored SHA-256
fingerprint and the optional `tbsCertificate.validity` bounds (epoch ms,
compared through `new Date`). -/
structure StoredCert where
  fingerprintSha256 : Option String := none
  notBefore : Option Int := none
  notAfter : Option Int := none

/-- The verification result object.  The early untrusted return and the
full result mention different key sets (`valid`/`validPeriod` versus
`certificateValid`/`overallStatus`/`trustIssues`); absent keys are
modelled as `none`. -/
structure VerifyResult where
  valid : Option Bool := none
  trusted : Bool
  validPeriod : Option Bool := none
  certificateValid : Option Bool := none
  signatureValid : Bool
  imageHashValid : Bool
  overallStatus : Option String := none
  trustIssues : Option (List String) := none
  detailsError : Option String := none

/-- `verifyCertification` (the pure core of the component handler):
`reExtracted` is the result of re-extracting the certification from the
uploaded image (the image-integrity check), `now` the current time.  When
no trust-store entry matches the embedded fingerprint the handler returns
early with a result that has no `overallStatus` and no `trustIssues`;
otherwise it runs the period/signature/integrity checks and accumulates
the issue list. -/
def verifyCertification (cd : CertData) (trustedCertificates : List StoredCert)
    (reExtracted : Option CertData) (now : Int) : VerifyResult :=
  let trustedCert := trustedCertificates.find? fun tc =>
    match tc.fingerprintSha256 with
    | some s => some s == cd.certFingerprint
    | none => false
  match trustedCert with
  | none =>
    { valid := some false, trusted := false, validPeriod := some false,
      signatureValid := false, imageHashValid := false,
      detailsError := some "Certificate not found in trust store" }
  | some tc =>
    let isTrusted := true
    let isValidPeriod :=
      (match tc.notBefore with
       | some validFrom => decide (now ≥ validFrom)
       | none => true) &&
      (match tc.notAfter with
       | some validTo => decide (now ≤ validTo)
       | none => true)
    let signatureValid :=
      match cd.signature with
      | some arr => decide (arr.length > 0)
      | none => false
    let imageHashValid :=
      match reExtracted with
      | some re => re.certFingerprint == cd.certFingerprint &&
          re.timestamp == cd.timestamp
      | none => false
    { trusted := isTrusted
      certificateValid := some isValidPeriod
      signatureValid := signatureValid
      imageHashValid := imageHashValid
      overallStatus := some
        (if isTrusted && isValidPeriod && signatureValid && imageHashValid
         then "verified" else "failed")
      trustIssues := some
        ((if !isTrusted then ["Certificate not in trust store"] else []) ++
         (if !isValidPeriod then ["Certificate expired or not yet valid"] else []) ++
         (if !signatureValid then ["Cryptographic signature verification failed"] else []) ++
         (if !imageHashValid then ["Image data has been modified since signing"] else [])) }

end TrustVerifier

/-! ### Well-formed container descriptions

The round-trip and idempotence statements quantify over structurally
well-formed containers; these definitions describe the byte shapes the
PNG chunk walk and the JPEG marker walk expect. -/

/-- A PNG chunk as laid out on the wire: type tag, data, CRC field (the
walks never verify the CRC, so it is carried as raw bytes). -/
structure PChunk where
  ty : List Nat
  data : List Nat
  crc : List Nat

/-- Wire encoding of a chunk: 4-byte big-endian data length, type tag,
data, CRC. -/
def encodeChunk (c : PChunk) : List Nat :=
  PNGEmbedder.be32Bytes c.data.length ++ c.ty ++ c.data ++ c.crc

/-- Concatenated wire encoding of a chunk sequence. -/
def chunksBytes : List PChunk → List Nat
  | [] => []
  | c :: cs => encodeChunk c ++ chunksBytes cs

/-- Structural well-formedness of a chunk: 4-byte type and CRC fields,
and a data length the signed 32-bit length read reproduces. -/
def wfChunk (c : PChunk) : Prop :=
  c.ty.length = 4 ∧ c.crc.length = 4 ∧ c.data.length < 2 ^ 31

instance : DecidablePred wfChunk := fun c => by
  unfold wfChunk
  infer_instance

/-- The chunks `stripPNGMetadata`'s walk retains from a well-formed
chunk sequence: critical chunks are kept, except that the walk's loop
guard (`i < length - 12`) never processes a final chunk with empty data
(its 12 bytes sit exactly at the guard boundary). -/
def keptChunks : List PChunk → List PChunk
  | [] => []
  | [c] =>
    if c.data.length = 0 then []
    else if WebCryptoUtils.isCriticalChunk c.ty then [c] else []
  | c :: c' :: cs =>
    (if WebCryptoUtils.isCriticalChunk c.ty then [c] else []) ++ keptChunks (c' :: cs)

/-- A JPEG marker segment with a 2-byte length field: marker byte and
data bytes (the encoded length field counts the data plus itself). -/
structure JSeg where
  marker : Nat
  data : List Nat

/-- Wire encoding of a marker segment: `FF`, marker, big-endian 16-bit
length (`data.length + 2`), data. -/
def encodeSeg (s : JSeg) : List Nat :=
  0xFF :: s.marker :: (((s.data.length + 2) >>> 8) &&& 0xFF) ::
    ((s.data.length + 2) &&& 0xFF) :: s.data

/-- Concatenated wire encoding of a segment sequence. -/
def segsBytes : List JSeg → List Nat
  | [] => []
  | s :: ss => encodeSeg s ++ segsBytes ss

/-- How a well-formed JPEG stream ends after its marker segments:
nothing, an EOI marker, or a start-of-scan marker followed by raw scan
data. -/
inductive JTail where
  | empty : JTail
  | eoi : JTail
  | scan (rest : List Nat) : JTail

/-- Wire bytes of the stream tail. -/
def jtailBytes : JTail → List Nat
  | .empty => []
  | .eoi => [0xFF, 0xD9]
  | .scan rest => 0xFF :: 0xDA :: rest

/-- Structural well-formedness of a marker segment: a single byte that
is none of the markers without a length field (SOI, EOI, SOS), and a
length that fits the 16-bit field. -/
def wfSeg (s : JSeg) : Prop :=
  s.marker < 256 ∧ s.marker ≠ 0xD8 ∧ s.marker ≠ 0xD9 ∧ s.marker ≠ 0xDA ∧
    s.data.length + 2 ≤ 65535

instance : DecidablePred wfSeg := fun s => by
  unfold wfSeg
  infer_instance

/-! ### Shared arithmetic and list lemmas -/

theorem lor_eq_add_of_dvd {a b : Nat} (k : Nat) (ha : 2 ^ k ∣ a) (hb : b < 2 ^ k) :
    a ||| b = a + b := by
  obtain ⟨c, rfl⟩ := ha
  exact (Nat.mul_add_lt_is_or hb c).symm

theorem land_255_eq_mod (x : Nat) : x &&& 0xFF = x % 256 := by
  have : (0xFF : Nat) = 2 ^ 8 - 1 := by norm_num
  rw [this, Nat.and_pow_two_sub_one_eq_mod]

/-- Decoding the two bytes the JPEG embedder stores for a 16-bit segment
length recovers the length. -/
theorem be16_decode {L : Nat} (h : L < 65536) :
    ((((L >>> 8) &&& 0xFF) <<< 8) ||| (L &&& 0xFF)) = L := by
  rw [land_255_eq_mod, land_255_eq_mod, Nat.shiftRight_eq_div_pow, Nat.shiftLeft_eq]
  have hdiv : L / 2 ^ 8 % 256 = L / 2 ^ 8 := Nat.mod_eq_of_lt (by omega)
  rw [hdiv, lor_eq_add_of_dvd 8 ⟨L / 2 ^ 8, by ring⟩ (by omega)]
  omega

/-- Decoding the four bytes `be32Bytes` stores for a value below `2^32`
recovers the value. -/
theorem be32_decode {n : Nat} (h : n < 2 ^ 32) :
    ((((n >>> 24) &&& 0xFF) <<< 24) ||| (((n >>> 16) &&& 0xFF) <<< 16) |||
      (((n >>> 8) &&& 0xFF) <<< 8) ||| (n &&& 0xFF)) = n := by
  have hb0 : ((n >>> 24) &&& 0xFF) <<< 24 = n / 2 ^ 24 * 2 ^ 24 := by
    rw [land_255_eq_mod, Nat.shiftRight_eq_div_pow, Nat.shiftLeft_eq,
      Nat.mod_eq_of_lt (show n / 2 ^ 24 < 256 by omega)]
  have hb1 : ((n >>> 16) &&& 0xFF) <<< 16 = n / 2 ^ 16 % 256 * 2 ^ 16 := by
    rw [land_255_eq_mod, Nat.shiftRight_eq_div_pow, Nat.shiftLeft_eq]
  have hb2 : ((n >>> 8) &&& 0xFF) <<< 8 = n / 2 ^ 8 % 256 * 2 ^ 8 := by
    rw [land_255_eq_mod, Nat.shiftRight_eq_div_pow, Nat.shiftLeft_eq]
  have hb3 : n &&& 0xFF = n % 256 := land_255_eq_mod n
  rw [hb0, hb1, hb2, hb3]
  have hm1 : n / 2 ^ 16 % 256 < 256 := Nat.mod_lt _ (by norm_num)
  have hm2 : n / 2 ^ 8 % 256 < 256 := Nat.mod_lt _ (by norm_num)
  have hm3 : n % 256 < 256 := Nat.mod_lt _ (by norm_num)
  have e1 : n / 2 ^ 24 * 2 ^ 24 ||| n / 2 ^ 16 % 256 * 2 ^ 16 =
      n / 2 ^ 24 * 2 ^ 24 + n / 2 ^ 16 % 256 * 2 ^ 16 :=
    lor_eq_add_of_dvd 24 ⟨n / 2 ^ 24, by ring⟩ (by omega)
  rw [e1]
  have e2 : n / 2 ^ 24 * 2 ^ 24 + n / 2 ^ 16 % 256 * 2 ^ 16 |||
      n / 2 ^ 8 % 256 * 2 ^ 8 =
      n / 2 ^ 24 * 2 ^ 24 + n / 2 ^ 16 % 256 * 2 ^ 16 + n / 2 ^ 8 % 256 * 2 ^ 8 :=
    lor_eq_add_of_dvd 16 ⟨n / 2 ^ 24 * 2 ^ 8 + n / 2 ^ 16 % 256, by ring⟩ (by omega)
  rw [e2]
  have e3 : n / 2 ^ 24 * 2 ^ 24 + n / 2 ^ 16 % 256 * 2 ^ 16 + n / 2 ^ 8 % 256 * 2 ^ 8 |||
      n % 256 =
      n / 2 ^ 24 * 2 ^ 24 + n / 2 ^ 16 % 256 * 2 ^ 16 + n / 2 ^ 8 % 256 * 2 ^ 8 + n % 256 :=
    lor_eq_add_of_dvd 8
      ⟨(n / 2 ^ 24 * 2 ^ 8 + n / 2 ^ 16 % 256) * 2 ^ 8 + n / 2 ^ 8 % 256, by ring⟩
      (by omega)
  rw [e3]
  omega

theorem joinSep_cons_prefix (sep x : String) (l : List String) :
    ∃ r, joinSep sep (x :: l) = x ++ r := by
  cases l with
  | nil => exact ⟨"", by simp [joinSep]⟩
  | cons y ys => exact ⟨sep ++ joinSep sep (y :: ys), by simp [joinSep, String.append_assoc]⟩

theorem byteAt_cons_zero (a : Nat) (l : List Nat) : byteAt (a :: l) 0 = a := rfl

theorem byteAt_cons_succ (a : Nat) (l : List Nat) (n : Nat) :
    byteAt (a :: l) (n + 1) = byteAt l n := rfl

theorem byteAt_drop (b : List Nat) : ∀ (n k : Nat), byteAt (b.drop n) k = byteAt b (n + k) := by
  induction b with
  | nil => intro n k; cases n <;> rfl
  | cons a l ih =>
    intro n k
    cases n with
    | zero => simp
    | succ m =>
      rw [List.drop_succ_cons, ih m k, show m + 1 + k = (m + k) + 1 from by omega,
        byteAt_cons_succ]

theorem byteAtI_coe (b : List Nat) (n : Nat) : byteAtI b (n : Int) = byteAt b n := by
  simp [byteAtI]

theorem int32OfNat_small {v : Nat} (h : v < 2 ^ 31) : int32OfNat v = v := if_pos h

theorem jsSlice_of_bounds (b : List Nat) (s e : Int) (h0 : 0 ≤ s) (hse : s ≤ e)
    (he : e ≤ b.length) : jsSlice b s e = (b.drop s.toNat).take (e - s).toNat := by
  simp only [jsSlice]
  rw [if_neg (by omega : ¬s < 0), if_neg (by omega : ¬e < 0),
    min_eq_left (show s ≤ (b.length : Int) from le_trans hse he), min_eq_left he]
  by_cases heq : e ≤ s
  · have : e = s := le_antisymm heq hse
    subst this
    simp
  · rw [if_neg heq]

/-- `readI32` at a `Nat` offset whose suffix starts with an encoded
length field below `2^31` recovers that length. -/
theorem readI32_at_of_drop {b : List Nat} {o n : Nat} {R : List Nat}
    (hd : b.drop o = PNGEmbedder.be32Bytes n ++ R) (h : n < 2 ^ 31) :
    PNGEmbedder.readI32 b (o : Int) = (n : Int) := by
  simp only [PNGEmbedder.readI32, byteAtI]
  rw [if_pos (by omega : (0 : Int) ≤ (o : Int)),
    if_pos (by omega : (0 : Int) ≤ (o : Int) + 1),
    if_pos (by omega : (0 : Int) ≤ (o : Int) + 2),
    if_pos (by omega : (0 : Int) ≤ (o : Int) + 3),
    show ((o : Int)).toNat = o from by omega,
    show ((o : Int) + 1).toNat = o + 1 from by omega,
    show ((o : Int) + 2).toNat = o + 2 from by omega,
    show ((o : Int) + 3).toNat = o + 3 from by omega]
  have g : ∀ k : Nat, byteAt b (o + k) = byteAt (PNGEmbedder.be32Bytes n ++ R) k :=
    fun k => by rw [← byteAt_drop, hd]
  have g0 : byteAt b o = byteAt (PNGEmbedder.be32Bytes n ++ R) 0 := by
    simpa using g 0
  rw [g0, g 1, g 2, g 3]
  have e0 : byteAt (PNGEmbedder.be32Bytes n ++ R) 0 = (n >>> 24) &&& 0xFF := rfl
  have e1 : byteAt (PNGEmbedder.be32Bytes n ++ R) 1 = (n >>> 16) &&& 0xFF := rfl
  have e2 : byteAt (PNGEmbedder.be32Bytes n ++ R) 2 = (n >>> 8) &&& 0xFF := rfl
  have e3 : byteAt (PNGEmbedder.be32Bytes n ++ R) 3 = n &&& 0xFF := rfl
  rw [e0, e1, e2, e3, be32_decode (by omega), int32OfNat_small h]

/-- The chunk-type read at a `Nat` offset whose suffix is an encoded
chunk returns the type tag. -/
theorem chunkTypeAt_of_drop {b : List Nat} {o n t0 t1 t2 t3 : Nat} {R : List Nat}
    (hd : b.drop o = PNGEmbedder.be32Bytes n ++ (t0 :: t1 :: t2 :: t3 :: R)) :
    PNGEmbedder.chunkTypeAt b (o : Int) = [t0, t1, t2, t3] := by
  simp only [PNGEmbedder.chunkTypeAt, byteAtI]
  rw [if_pos (by omega : (0 : Int) ≤ (o : Int) + 4),
    if_pos (by omega : (0 : Int) ≤ (o : Int) + 5),
    if_pos (by omega : (0 : Int) ≤ (o : Int) + 6),
    if_pos (by omega : (0 : Int) ≤ (o : Int) + 7),
    show ((o : Int) + 4).toNat = o + 4 from by omega,
    show ((o : Int) + 5).toNat = o + 5 from by omega,
    show ((o : Int) + 6).toNat = o + 6 from by omega,
    show ((o : Int) + 7).toNat = o + 7 from by omega]
  have g : ∀ k : Nat,
      byteAt b (o + k) = byteAt (PNGEmbedder.be32Bytes n ++ (t0 :: t1 :: t2 :: t3 :: R)) k :=
    fun k => by rw [← byteAt_drop, hd]
  rw [g 4, g 5, g 6, g 7]
  rfl

theorem list_length_eq_four {α : Type} {l : List α} (h : l.length = 4) :
    ∃ a b c d, l = [a, b, c, d] := by
  match l, h with
  | [a, b, c, d], _ => exact ⟨a, b, c, d, rfl⟩

theorem chunksBytes_length_le (cs : List PChunk) :
    cs.length ≤ (chunksBytes cs).length := by
  induction cs with
  | nil => simp [chunksBytes]
  | cons c cs ih =>
    simp only [chunksBytes, List.length_append, List.length_cons]
    have : 1 ≤ (encodeChunk c).length := by
      simp [encodeChunk, PNGEmbedder.be32Bytes]
    omega

theorem encodeChunk_length (c : PChunk) (hc : wfChunk c) :
    (encodeChunk c).length = c.data.length + 12 := by
  obtain ⟨hty, hcrc, -⟩ := hc
  simp [encodeChunk, PNGEmbedder.be32Bytes, hty, hcrc]
  omega

theorem isValidPNG_append (rest : List Nat) :
    PNGEmbedder.isValidPNG (PNGEmbedder.pngSignature ++ rest) = true := by
  show PNGEmbedder.isValidPNG
    (0x89 :: 0x50 :: 0x4E :: 0x47 :: 0x0D :: 0x0A :: 0x1A :: 0x0A :: rest) = true
  simp only [PNGEmbedder.isValidPNG, Bool.and_eq_true, decide_eq_true_eq]
  exact ⟨by simp, rfl⟩

/-! ### C2 — JPEG embed/extract round trip -/

theorem isValidJPEG_shape {b : List Nat} (h : JPEGEmbedder.isValidJPEG b = true) :
    b = 0xFF :: 0xD8 :: b.drop 2 := by
  match b with
  | [] => simp [JPEGEmbedder.isValidJPEG] at h
  | [a] => simp [JPEGEmbedder.isValidJPEG, byteAt] at h
  | a :: c :: t =>
    simp only [JPEGEmbedder.isValidJPEG, Bool.and_eq_true, beq_iff_eq,
      decide_eq_true_eq, byteAt_cons_zero, byteAt_cons_succ] at h
    simp [h.1.2, h.2]

/-- C2: for every valid JPEG buffer `b` (leading `FF D8`) and every
payload whose serialised form fits the 16-bit segment-length ceiling
(`length + 10 ≤ 65535`), embedding succeeds, extracting from the
embedded buffer returns exactly the payload, and the embedded buffer is
itself a valid JPEG. -/
theorem jpeg_roundtrip {α : Type} (stringify : α → List Nat)
    (parse : List Nat → Option α) (b : List Nat) (p : α)
    (hb : JPEGEmbedder.isValidJPEG b = true)
    (hsize : (stringify p).length + 10 ≤ 65535)
    (hparse : parse (stringify p) = some p) :
    ∃ out, JPEGEmbedder.embedCertification stringify b p = .ok out ∧
      JPEGEmbedder.extractCertification parse out = some p ∧
      JPEGEmbedder.isValidJPEG out = true := by
  set cert := stringify p with hcert
  have hlen : cert.length + JPEGEmbedder.sigBytes.length + 2 ≤ 65535 := by
    simpa [JPEGEmbedder.sigBytes] using hsize
  set L := cert.length + JPEGEmbedder.sigBytes.length + 2 with hL
  have hembed : JPEGEmbedder.embedCertification stringify b p =
      .ok (JPEGEmbedder.insertSegment b (JPEGEmbedder.createAPP15Segment cert L)) := by
    rw [JPEGEmbedder.embedCertification, hb]
    simp only [Bool.not_true, Bool.false_eq_true, if_false, ← hcert, ← hL]
    rw [if_neg (by omega)]
  set out := JPEGEmbedder.insertSegment b (JPEGEmbedder.createAPP15Segment cert L)
    with hout
  have hb2 := isValidJPEG_shape hb
  set t := b.drop 2 with ht
  have houtshape : out = 0xFF :: 0xD8 :: 0xFF :: 0xEF :: ((L >>> 8) &&& 0xFF) ::
      (L &&& 0xFF) :: (JPEGEmbedder.sigBytes ++ (cert ++ t)) := by
    rw [hout, JPEGEmbedder.insertSegment, JPEGEmbedder.createAPP15Segment]
    conv_lhs => rw [hb2]
    simp [List.append_assoc]
  have hvalid : JPEGEmbedder.isValidJPEG out = true := by
    rw [houtshape]
    simp [JPEGEmbedder.isValidJPEG, byteAt]
  refine ⟨out, hembed, ?_, hvalid⟩
  rw [JPEGEmbedder.extractCertification, hvalid]
  simp only [Bool.not_true, Bool.false_eq_true, if_false]
  have hdrop2 : out.drop 2 = 0xFF :: 0xEF :: ((L >>> 8) &&& 0xFF) ::
      (L &&& 0xFF) :: (JPEGEmbedder.sigBytes ++ (cert ++ t)) := by
    rw [houtshape]; rfl
  rw [hdrop2, JPEGEmbedder.extractLoop]
  have hlength : 4 < (0xFF :: 0xEF :: ((L >>> 8) &&& 0xFF) :: (L &&& 0xFF) ::
      (JPEGEmbedder.sigBytes ++ (cert ++ t)) : List Nat).length := by
    simp [JPEGEmbedder.sigBytes]
  rw [if_pos hlength]
  have hmark : (byteAt (0xFF :: 0xEF :: ((L >>> 8) &&& 0xFF) :: (L &&& 0xFF) ::
      (JPEGEmbedder.sigBytes ++ (cert ++ t))) 0 == 0xFF &&
      byteAt (0xFF :: 0xEF :: ((L >>> 8) &&& 0xFF) :: (L &&& 0xFF) ::
      (JPEGEmbedder.sigBytes ++ (cert ++ t))) 1 == 0xEF) = true := by
    simp [byteAt]
  rw [if_pos hmark]
  have hsig : ((0xFF :: 0xEF :: ((L >>> 8) &&& 0xFF) :: (L &&& 0xFF) ::
      (JPEGEmbedder.sigBytes ++ (cert ++ t)) : List Nat).drop 4).take
      JPEGEmbedder.sigBytes.length == JPEGEmbedder.sigBytes := by
    simp only [List.drop_succ_cons, List.drop_zero, List.take_left, beq_self_eq_true]
  rw [if_pos hsig]
  have hseg : (byteAt (0xFF :: 0xEF :: ((L >>> 8) &&& 0xFF) :: (L &&& 0xFF) ::
      (JPEGEmbedder.sigBytes ++ (cert ++ t))) 2 <<< 8) |||
      byteAt (0xFF :: 0xEF :: ((L >>> 8) &&& 0xFF) :: (L &&& 0xFF) ::
      (JPEGEmbedder.sigBytes ++ (cert ++ t))) 3 = L := by
    show (((L >>> 8) &&& 0xFF) <<< 8) ||| (L &&& 0xFF) = L
    exact be16_decode (by omega)
  rw [hseg]
  have hdata : ((0xFF :: 0xEF :: ((L >>> 8) &&& 0xFF) :: (L &&& 0xFF) ::
      (JPEGEmbedder.sigBytes ++ (cert ++ t)) : List Nat).drop
      (4 + JPEGEmbedder.sigBytes.length)).take
      (Int.toNat ((L : Int) - JPEGEmbedder.sigBytes.length - 2)) = cert := by
    have h1 : ((0xFF :: 0xEF :: ((L >>> 8) &&& 0xFF) :: (L &&& 0xFF) ::
        (JPEGEmbedder.sigBytes ++ (cert ++ t)) : List Nat).drop
        (4 + JPEGEmbedder.sigBytes.length)) = cert ++ t := by
      simp [JPEGEmbedder.sigBytes]
    have h2 : Int.toNat ((L : Int) - JPEGEmbedder.sigBytes.length - 2) = cert.length := by
      rw [hL]; omega
    rw [h1, h2, List.take_left]
  simp only [hdata, hparse]

/-- C2 witness: a two-byte SOI-only JPEG and a one-byte payload under the
identity serialiser. -/
theorem jpeg_roundtrip_witness :
    JPEGEmbedder.isValidJPEG [0xFF, 0xD8] = true ∧
    ∃ out, JPEGEmbedder.embedCertification id [0xFF, 0xD8] [49] = .ok out ∧
      JPEGEmbedder.extractCertification some out = some [49] ∧
      JPEGEmbedder.isValidJPEG out = true :=
  ⟨by decide,
   jpeg_roundtrip id some [0xFF, 0xD8] [49] (by decide) (by decide) rfl⟩

/-! ### C5 — segment-size ceilings -/

/-- C5: over a valid JPEG buffer, embedding fails — with the
segment-too-large error — exactly when the payload's serialised length
plus the 10 bytes of overhead (8-byte tag + 2-byte length) exceeds
65535; over a valid PNG buffer with an IEND chunk, the PNG embedder
accepts any such payload up to its own `2147483647` ceiling. -/
theorem segment_size_ceiling {α : Type} (stringify : α → List Nat)
    (b bp : List Nat) (p : α) (pos : Nat)
    (hb : JPEGEmbedder.isValidJPEG b = true)
    (hp : PNGEmbedder.isValidPNG bp = true)
    (hiend : PNGEmbedder.findIENDChunk bp = some pos) :
    (JPEGEmbedder.embedCertification stringify b p =
        .error "Certification data too large for JPEG segment" ↔
      65535 < (stringify p).length + 10) ∧
    ((stringify p).length ≤ 2147483647 →
      ∃ out, PNGEmbedder.embedCertification stringify bp p = .ok out) := by
  constructor
  · rw [JPEGEmbedder.embedCertification, hb]
    simp only [Bool.not_true, Bool.false_eq_true, if_false]
    have hsig : JPEGEmbedder.sigBytes.length = 8 := rfl
    by_cases hgt : (stringify p).length + JPEGEmbedder.sigBytes.length + 2 > 65535
    · rw [if_pos hgt]
      simp only [true_iff]
      omega
    · rw [if_neg hgt]
      simp only [iff_false_intro (by omega : ¬65535 < (stringify p).length + 10),
        iff_false]
      intro hcontra
      exact absurd hcontra (by simp)
  · intro hle
    rw [PNGEmbedder.embedCertification, hp]
    simp only [Bool.not_true, Bool.false_eq_true, if_false, hiend]
    rw [if_neg (by omega)]
    exact ⟨_, rfl⟩

/-- C5 witness: a payload of 65526 bytes overflows the JPEG 16-bit
ceiling (65526 + 10 = 65536) while the PNG embedder accepts it into a
minimal signature-plus-IEND PNG. -/
theorem segment_size_ceiling_witness :
    (JPEGEmbedder.embedCertification id [0xFF, 0xD8] (List.replicate 65526 48) =
      .error "Certification data too large for JPEG segment") ∧
    ∃ out, PNGEmbedder.embedCertification id
      (PNGEmbedder.pngSignature ++ [0, 0, 0, 0, 0x49, 0x45, 0x4E, 0x44, 1, 2, 3, 4])
      (List.replicate 65526 48) = .ok out := by
  have h := segment_size_ceiling id [0xFF, 0xD8]
    (PNGEmbedder.pngSignature ++ [0, 0, 0, 0, 0x49, 0x45, 0x4E, 0x44, 1, 2, 3, 4])
    (List.replicate 65526 48) 8 (by decide) (by decide) (by decide)
  have hlen : (id (List.replicate 65526 48) : List Nat).length = 65526 := by
    rw [id_eq, List.length_replicate]
  exact ⟨h.1.mpr (by rw [hlen]; norm_num), h.2 (by rw [hlen]; norm_num)⟩

/-! ### C6 — CRC32 test vector -/

/-- C6: the PNG codec's `calculateCRC32` (table-driven, polynomial
`0xEDB88320`, initial/final XOR `0xFFFFFFFF`) maps the 9 ASCII bytes of
`"123456789"` to the standard CRC32 check value `0xCBF43926`. -/
theorem crc32_check_value :
    PNGEmbedder.calculateCRC32 [0x31, 0x32, 0x33, 0x34, 0x35, 0x36, 0x37, 0x38, 0x39] =
      0xCBF43926 := by decide

/-! ### C8 — Distinguished Name formatting -/

/-- C8: `formatDistinguishedName` joins exactly the present fields as
`ABBREV=value`, comma-separated, in the fixed field order; on
`{commonName: "Jane Doe", organization: "Acme", country: "US"}` it
produces `"CN=Jane Doe, O=Acme, C=US"`, and with all seven fields
supplied the fixed order CN, O, OU, L, ST, C, E appears. -/
theorem formatDN_canonical_string :
    (X509Certificate.formatDistinguishedName
      { commonName := some "Jane Doe", organization := some "Acme",
        country := some "US" }).string = "CN=Jane Doe, O=Acme, C=US" ∧
    (X509Certificate.formatDistinguishedName
      { commonName := some "A", organization := some "B", department := some "C",
        city := some "D", state := some "E", country := some "F",
        email := some "G" }).string =
      "CN=A, O=B, OU=C, L=D, ST=E, C=F, E=G" := by
  constructor <;> rfl

/-! ### C10 — the common-name component is always present -/

/-- C10: for every input record `formatDistinguishedName` yields a
(non-null) string common name — the literal `"Unknown"` when the input
supplies neither `name` nor `commonName` — and the canonical string of
every generated DN begins with `"CN="`. -/
theorem formatDN_commonName_total (info : X509Certificate.SubjectInfo) :
    ((info.name = none ∧ info.commonName = none) →
      (X509Certificate.formatDistinguishedName info).commonName = "Unknown") ∧
    ∃ rest, (X509Certificate.formatDistinguishedName info).string = "CN=" ++ rest := by
  constructor
  · rintro ⟨h1, h2⟩
    simp [X509Certificate.formatDistinguishedName, h1, h2, jsOrStr, jsOrDefault]
  · simp only [X509Certificate.formatDistinguishedName, X509Certificate.dnEntries]
    set cn := jsOrDefault (jsOrStr info.name info.commonName) "Unknown" with hcn
    simp only [List.filter_cons, Option.isSome_some, if_true, List.map_cons]
    have habbrev : X509Certificate.getDNAbbreviation "commonName" ++ "=" ++
        (some cn).getD "" = "CN=" ++ cn := rfl
    rw [habbrev]
    obtain ⟨r, hr⟩ := joinSep_cons_prefix ", " ("CN=" ++ cn) _
    exact ⟨cn ++ r, by rw [hr, String.append_assoc]⟩

/-- C10 witness: the empty input record gets the `"Unknown"` common name
and a `CN=`-prefixed canonical string. -/
theorem formatDN_commonName_total_witness :
    (X509Certificate.formatDistinguishedName {}).commonName = "Unknown" ∧
    ∃ rest, (X509Certificate.formatDistinguishedName {}).string = "CN=" ++ rest :=
  ⟨(formatDN_commonName_total {}).1 ⟨rfl, rfl⟩,
   (formatDN_commonName_total {}).2⟩

/-! ### C9 — validity-period flags of `validateAgainstTrustStore` -/

theorem searchTrustStore_flags (ci : PEMParser.CertInfo) :
    ∀ store : List PEMParser.CertInfo,
      (PEMParser.searchTrustStore ci store).expired = false ∧
      (PEMParser.searchTrustStore ci store).notYetValid = false
  | [] => ⟨rfl, rfl⟩
  | t :: rest => by
    simp only [PEMParser.searchTrustStore]
    by_cases h1 : t.subject == ci.issuer
    · simp [h1]
    · simp only [h1, Bool.false_eq_true, if_false]
      by_cases h2 : t.serialNumber == ci.serialNumber &&
          t.fingerprintSha256 == ci.fingerprintSha256
      · simp [h2]
      · simp only [h2, Bool.false_eq_true, if_false]
        exact searchTrustStore_flags ci rest

/-- C9: for a certificate carrying both validity timestamps (with the
data-model invariant `notBefore < notAfter`) and any trust store,
`validateAgainstTrustStore` flags `expired` iff `now > notAfter`, flags
`notYetValid` iff `now < notBefore`, and raises neither flag at any time
strictly between the two. -/
theorem validateAgainstTrustStore_period_flags (ci : PEMParser.CertInfo)
    (store : List PEMParser.CertInfo) (now vf vt : Int)
    (hfrom : ci.validFrom = some vf) (hto : ci.validTo = some vt) (hlt : vf < vt) :
    ((PEMParser.validateAgainstTrustStore ci store now).expired = true ↔ vt < now) ∧
    ((PEMParser.validateAgainstTrustStore ci store now).notYetValid = true ↔ now < vf) ∧
    (vf < now → now < vt →
      (PEMParser.validateAgainstTrustStore ci store now).expired = false ∧
      (PEMParser.validateAgainstTrustStore ci store now).notYetValid = false) := by
  have hsearch := searchTrustStore_flags ci store
  simp only [PEMParser.validateAgainstTrustStore, hfrom, hto]
  by_cases hexp : now > vt
  · rw [if_pos hexp]
    refine ⟨by simpa using hexp, ?_, by omega⟩
    simp only [Bool.false_eq_true, false_iff]
    omega
  · rw [if_neg hexp]
    by_cases hnyv : now < vf
    · rw [if_pos hnyv]
      exact ⟨by simpa using hexp, by simpa using hnyv, by omega⟩
    · rw [if_neg hnyv]
      refine ⟨?_, ?_, fun _ _ => hsearch⟩
      · rw [hsearch.1]
        simp only [Bool.false_eq_true, false_iff]
        omega
      · rw [hsearch.2]
        simp only [Bool.false_eq_true, false_iff]
        omega

/-- C9 witness: validity window `[10, 20]` raises neither flag at time
15, the `expired` flag at time 25, and the `notYetValid` flag at
time 5. -/
theorem validateAgainstTrustStore_period_flags_witness :
    ((PEMParser.validateAgainstTrustStore
        { subject := "s", issuer := "i", serialNumber := "1",
          validFrom := some 10, validTo := some 20 } [] 15).expired = false ∧
      (PEMParser.validateAgainstTrustStore
        { subject := "s", issuer := "i", serialNumber := "1",
          validFrom := some 10, validTo := some 20 } [] 15).notYetValid = false) ∧
    (PEMParser.validateAgainstTrustStore
      { subject := "s", issuer := "i", serialNumber := "1",
        validFrom := some 10, validTo := some 20 } [] 25).expired = true ∧
    (PEMParser.validateAgainstTrustStore
      { subject := "s", issuer := "i", serialNumber := "1",
        validFrom := some 10, validTo := some 20 } [] 5).notYetValid = true :=
  ⟨(validateAgainstTrustStore_period_flags _ [] 15 10 20 rfl rfl (by norm_num)).2.2
      (by norm_num) (by norm_num),
   (validateAgainstTrustStore_period_flags _ [] 25 10 20 rfl rfl (by norm_num)).1.mpr
      (by norm_num),
   (validateAgainstTrustStore_period_flags _ [] 5 10 20 rfl rfl (by norm_num)).2.1.mpr
      (by norm_num)⟩

/-! ### C3 — PNG embed/extract round trip -/

theorem createTrustChunk_length (cert : List Nat) :
    (PNGEmbedder.createTrustChunk cert).length = cert.length + 12 := by
  simp [PNGEmbedder.createTrustChunk, PNGEmbedder.be32Bytes, PNGEmbedder.trstBytes]

/-- The extraction chunk walk skips any sequence of well-formed
non-`tRST` chunks and then parses the trust chunk's data region. -/
theorem pngExtractLoop_finds_trust {α : Type} (parse : List Nat → Option α)
    (b cert iendTail : List Nat) (p : α)
    (hiend : iendTail.length = 12)
    (hsize : cert.length < 2 ^ 31)
    (hparse : parse cert = some p) :
    ∀ (cs : List PChunk) (fuel o : Nat),
      (∀ c ∈ cs, wfChunk c ∧ c.ty ≠ PNGEmbedder.trstBytes) →
      cs.length < fuel →
      o ≤ b.length →
      b.drop o = chunksBytes cs ++ (PNGEmbedder.createTrustChunk cert ++ iendTail) →
      PNGEmbedder.extractLoop parse b fuel (o : Int) = some p := by
  intro cs
  induction cs with
  | nil =>
    intro fuel o hwf hfuel ho hd
    simp only [chunksBytes, List.nil_append] at hd
    obtain ⟨f, rfl⟩ : ∃ f, fuel = f + 1 := ⟨fuel - 1, by omega⟩
    have hlendrop : (b.drop o).length = b.length - o := b.length_drop o
    have hblen : b.length = o + (cert.length + 24) := by
      rw [hd] at hlendrop
      simp only [List.length_append, createTrustChunk_length, hiend] at hlendrop
      omega
    rw [PNGEmbedder.extractLoop]
    rw [if_pos (by omega : (o : Int) < (b.length : Int) - 12)]
    have hd' : b.drop o = PNGEmbedder.be32Bytes cert.length ++
        (0x74 :: 0x52 :: 0x53 :: 0x54 ::
          (cert ++ (PNGEmbedder.be32Bytes
            (PNGEmbedder.calculateCRC32 (PNGEmbedder.trstBytes ++ cert)) ++ iendTail))) := by
      rw [hd]
      simp [PNGEmbedder.createTrustChunk, PNGEmbedder.trstBytes, List.append_assoc]
    rw [if_pos (show (PNGEmbedder.chunkTypeAt b (o : Int) == PNGEmbedder.trstBytes) = true
      from by rw [chunkTypeAt_of_drop hd']; decide)]
    rw [readI32_at_of_drop hd' hsize]
    have hslice : jsSlice b ((o : Int) + 8) ((o : Int) + 8 + (cert.length : Int)) =
        cert := by
      rw [jsSlice_of_bounds _ _ _ (by omega) (by omega) (by omega)]
      rw [show (((o : Int) + 8)).toNat = o + 8 from by omega,
        show ((o : Int) + 8 + (cert.length : Int) - ((o : Int) + 8)).toNat = cert.length
          from by omega]
      have hdrop8 : b.drop (o + 8) =
          cert ++ (PNGEmbedder.be32Bytes
            (PNGEmbedder.calculateCRC32 (PNGEmbedder.trstBytes ++ cert)) ++ iendTail) := by
        rw [← List.drop_drop, hd']
        have : (PNGEmbedder.be32Bytes cert.length ++
            (0x74 :: 0x52 :: 0x53 :: 0x54 :: (cert ++ (PNGEmbedder.be32Bytes
              (PNGEmbedder.calculateCRC32 (PNGEmbedder.trstBytes ++ cert)) ++ iendTail)))) =
            (PNGEmbedder.be32Bytes cert.length ++ [0x74, 0x52, 0x53, 0x54]) ++
            (cert ++ (PNGEmbedder.be32Bytes
              (PNGEmbedder.calculateCRC32 (PNGEmbedder.trstBytes ++ cert)) ++ iendTail)) := by
          simp [List.append_assoc]
        rw [this]
        exact List.drop_left' (by simp [PNGEmbedder.be32Bytes])
      rw [hdrop8, List.take_left']
      rfl
    rw [hslice, hparse]
  | cons c cs ih =>
    intro fuel o hwf hfuel ho hd
    obtain ⟨f, rfl⟩ : ∃ f, fuel = f + 1 := ⟨fuel - 1, by omega⟩
    obtain ⟨⟨hty, hcrc, hlt⟩, hnt⟩ := hwf c (List.mem_cons_self c cs)
    obtain ⟨t0, t1, t2, t3, hty4⟩ := list_length_eq_four hty
    have hwf' : ∀ c' ∈ cs, wfChunk c' ∧ c'.ty ≠ PNGEmbedder.trstBytes :=
      fun c' hc' => hwf c' (List.mem_cons_of_mem c hc')
    have henclen : (encodeChunk c).length = c.data.length + 12 :=
      encodeChunk_length c ⟨hty, hcrc, hlt⟩
    simp only [chunksBytes, List.append_assoc] at hd
    have hd' : b.drop o = PNGEmbedder.be32Bytes c.data.length ++
        (t0 :: t1 :: t2 :: t3 :: (c.data ++ (c.crc ++ (chunksBytes cs ++
          (PNGEmbedder.createTrustChunk cert ++ iendTail))))) := by
      rw [hd]
      simp [encodeChunk, hty4, List.append_assoc]
    have hlendrop : (b.drop o).length = b.length - o := b.length_drop o
    have hblen : o + (c.data.length + 12) + (cert.length + 24) ≤ b.length := by
      rw [hd'] at hlendrop
      simp only [List.length_append, List.length_cons, createTrustChunk_length,
        PNGEmbedder.be32Bytes, hiend] at hlendrop
      simp only [List.length_cons, List.length_nil] at hlendrop
      omega
    rw [PNGEmbedder.extractLoop]
    rw [if_pos (by omega : (o : Int) < (b.length : Int) - 12)]
    rw [if_neg (show ¬(PNGEmbedder.chunkTypeAt b (o : Int) == PNGEmbedder.trstBytes) = true
      from by
        rw [chunkTypeAt_of_drop hd']
        simp only [beq_iff_eq]
        rw [← hty4]
        exact hnt)]
    rw [readI32_at_of_drop hd' hlt]
    have hoff : (o : Int) + (c.data.length : Int) + 12 =
        ((o + (c.data.length + 12) : Nat) : Int) := by push_cast; ring
    rw [hoff]
    apply ih f (o + (c.data.length + 12)) hwf' (by simpa using hfuel) (by omega)
    rw [← henclen, ← List.drop_drop, hd]
    exact List.drop_left' rfl

/-- C3 counterexample: a buffer that passes `isValidPNG` (signature
check only) but whose first chunk's length field jumps the extraction
walk past the spliced trust chunk: embedding succeeds (the IEND byte
scan finds a match inside unreachable territory), yet extraction
returns `null`, so `extract(embed(b, p)) ≠ p`. -/
theorem png_roundtrip_counterexample :
    PNGEmbedder.isValidPNG
      [0x89, 0x50, 0x4E, 0x47, 0x0D, 0x0A, 0x1A, 0x0A,
       0, 0, 0, 100, 65, 65, 65, 65, 0, 0, 0, 0, 73, 69, 78, 68, 1, 2, 3, 4] = true ∧
    ∃ out, (PNGEmbedder.embedCertification id
      [0x89, 0x50, 0x4E, 0x47, 0x0D, 0x0A, 0x1A, 0x0A,
       0, 0, 0, 100, 65, 65, 65, 65, 0, 0, 0, 0, 73, 69, 78, 68, 1, 2, 3, 4]
      [55]).toOption = some out ∧
      PNGEmbedder.extractCertification some out = none := by
  refine ⟨by decide,
    [137, 80, 78, 71, 13, 10, 26, 10, 0, 0, 0, 100, 65, 65, 65, 65, 0, 0, 0, 1,
     116, 82, 83, 84, 55, 163, 228, 219, 141, 0, 0, 0, 0, 73, 69, 78, 68, 1, 2, 3, 4],
    by decide, by decide⟩

/-- C3 amended: the round trip `extract(embed(b, p)) = p` (and
`isValidPNG (embed(b, p)) = true`) holds for PNG buffers that are a
signature followed by well-formed non-`tRST` chunks and a final IEND
chunk, provided the raw `IEND` byte scan locates exactly that final
chunk's boundary (mere signature validity is not sufficient, and the
payload must stay below `2^31` so the signed chunk-length read stays
positive). -/
theorem png_roundtrip_wellformed {α : Type} (stringify : α → List Nat)
    (parse : List Nat → Option α) (cs : List PChunk) (iendCrc : List Nat) (p : α)
    (hcrc : iendCrc.length = 4)
    (hwf : ∀ c ∈ cs, wfChunk c ∧ c.ty ≠ PNGEmbedder.trstBytes)
    (hsize : (stringify p).length < 2 ^ 31)
    (hparse : parse (stringify p) = some p)
    (hfind : PNGEmbedder.findIENDChunk
      (PNGEmbedder.pngSignature ++ (chunksBytes cs ++
        ([0, 0, 0, 0] ++ (PNGEmbedder.iendBytes ++ iendCrc)))) =
      some (8 + (chunksBytes cs).length)) :
    ∃ out, PNGEmbedder.embedCertification stringify
        (PNGEmbedder.pngSignature ++ (chunksBytes cs ++
          ([0, 0, 0, 0] ++ (PNGEmbedder.iendBytes ++ iendCrc)))) p = .ok out ∧
      PNGEmbedder.extractCertification parse out = some p ∧
      PNGEmbedder.isValidPNG out = true := by
  set cert := stringify p with hcert
  set iendTail : List Nat := [0, 0, 0, 0] ++ (PNGEmbedder.iendBytes ++ iendCrc)
    with hiendTail
  set b : List Nat := PNGEmbedder.pngSignature ++ (chunksBytes cs ++ iendTail) with hbdef
  have hiendlen : iendTail.length = 12 := by
    simp [hiendTail, PNGEmbedder.iendBytes, hcrc]
  have hvalidb : PNGEmbedder.isValidPNG b = true := isValidPNG_append _
  have hembed : PNGEmbedder.embedCertification stringify b p =
      .ok (PNGEmbedder.insertChunk b (PNGEmbedder.createTrustChunk cert)
        (8 + (chunksBytes cs).length)) := by
    rw [PNGEmbedder.embedCertification, hvalidb]
    simp only [Bool.not_true, Bool.false_eq_true, if_false, hfind, ← hcert]
    rw [if_neg (by omega)]
  set out := PNGEmbedder.insertChunk b (PNGEmbedder.createTrustChunk cert)
    (8 + (chunksBytes cs).length) with houtdef
  have hsplit : b = (PNGEmbedder.pngSignature ++ chunksBytes cs) ++ iendTail := by
    rw [hbdef, List.append_assoc]
  have hpreflen : (PNGEmbedder.pngSignature ++ chunksBytes cs).length =
      8 + (chunksBytes cs).length := by
    simp [PNGEmbedder.pngSignature]
    omega
  have houtshape : out = PNGEmbedder.pngSignature ++
      (chunksBytes cs ++ (PNGEmbedder.createTrustChunk cert ++ iendTail)) := by
    rw [houtdef, PNGEmbedder.insertChunk, hsplit,
      List.take_left' hpreflen, List.drop_left' hpreflen]
    simp [List.append_assoc]
  have hvalidout : PNGEmbedder.isValidPNG out = true := by
    rw [houtshape]; exact isValidPNG_append _
  refine ⟨out, hembed, ?_, hvalidout⟩
  rw [PNGEmbedder.extractCertification, hvalidout]
  simp only [Bool.not_true, Bool.false_eq_true, if_false]
  have hlen8 : PNGEmbedder.pngSignature.length = 8 := rfl
  have hdrop8 : out.drop 8 = chunksBytes cs ++
      (PNGEmbedder.createTrustChunk cert ++ iendTail) := by
    rw [houtshape]
    exact List.drop_left' hlen8
  have houtlen : 8 + (chunksBytes cs).length +
      ((PNGEmbedder.createTrustChunk cert).length + 12) = out.length := by
    rw [houtshape]
    simp [createTrustChunk_length, hiendlen, PNGEmbedder.pngSignature]
    omega
  have hcast : (8 : Int) = ((8 : Nat) : Int) := by norm_num
  rw [hcast]
  exact pngExtractLoop_finds_trust parse out cert iendTail p hiendlen hsize hparse
    cs (out.length + 1) 8 hwf
    (by have := chunksBytes_length_le cs; omega)
    (by omega) hdrop8

/-- C3 amended witness: the empty chunk list — signature plus bare IEND
chunk — embeds and extracts a one-byte payload. -/
theorem png_roundtrip_wellformed_witness :
    ∃ out, PNGEmbedder.embedCertification id
        (PNGEmbedder.pngSignature ++ (chunksBytes [] ++
          ([0, 0, 0, 0] ++ (PNGEmbedder.iendBytes ++ [1, 2, 3, 4])))) [55] = .ok out ∧
      PNGEmbedder.extractCertification some out = some [55] ∧
      PNGEmbedder.isValidPNG out = true :=
  png_roundtrip_wellformed id some [] [1, 2, 3, 4] [55] (by decide)
    (by intro c hc; cases hc) (by decide) rfl (by decide)

/-! ### C4 — PNG strip aborts on corrupt length fields -/

theorem stripPNGWalk_nil (total fuel : Nat) :
    WebCryptoUtils.stripPNGWalk total fuel [] = [] := by
  cases fuel with
  | zero => rfl
  | succ n => rfl

/-- C4: when the chunk walk of `stripPNGMetadata` reaches a chunk whose
4-byte length field reads negative or larger than the remaining bytes,
the walk stops at that chunk — it returns only that chunk's (clamped)
copy, with no further chunk processed, for every fuel bound, so the
source loop neither throws nor runs forever there.  In particular a
whole buffer whose first chunk is forged strips to its first 8 bytes
plus that clamped copy. -/
theorem stripPNG_aborts_on_corrupt_length (total fuel : Nat) (s b : List Nat)
    (hguard : 12 < s.length)
    (hcorrupt : PNGEmbedder.readI32 s 0 < 0 ∨
      (s.length : Int) < PNGEmbedder.readI32 s 0 + 12)
    (hbguard : 12 < (b.drop 8).length)
    (hbcorrupt : PNGEmbedder.readI32 (b.drop 8) 0 < 0 ∨
      ((b.drop 8).length : Int) < PNGEmbedder.readI32 (b.drop 8) 0 + 12) :
    WebCryptoUtils.stripPNGWalk total (fuel + 2) s =
      (if WebCryptoUtils.isCriticalChunk (PNGEmbedder.chunkTypeAt s 0) then
        s.take (PNGEmbedder.readI32 s 0 + 12).toNat else []) ∧
    WebCryptoUtils.stripPNGMetadata b =
      (List.range 8).map (byteAt b) ++
      (if WebCryptoUtils.isCriticalChunk (PNGEmbedder.chunkTypeAt (b.drop 8) 0) then
        (b.drop 8).take (PNGEmbedder.readI32 (b.drop 8) 0 + 12).toNat else []) := by
  have main : ∀ (total fuel : Nat) (s : List Nat), 12 < s.length →
      (PNGEmbedder.readI32 s 0 < 0 ∨
        (s.length : Int) < PNGEmbedder.readI32 s 0 + 12) →
      WebCryptoUtils.stripPNGWalk total (fuel + 2) s =
        (if WebCryptoUtils.isCriticalChunk (PNGEmbedder.chunkTypeAt s 0) then
          s.take (PNGEmbedder.readI32 s 0 + 12).toNat else []) := by
    intro total fuel s hg hc
    rw [show fuel + 2 = (fuel + 1) + 1 from rfl, WebCryptoUtils.stripPNGWalk]
    rw [if_pos hg, if_neg (by omega : ¬s.length < 8)]
    by_cases hbrk : PNGEmbedder.readI32 s 0 < 0 ∨
        (total : Int) < PNGEmbedder.readI32 s 0
    · simp only [if_pos hbrk]
    · simp only [if_neg hbrk]
      push_neg at hbrk
      have hlen : (s.length : Int) < PNGEmbedder.readI32 s 0 + 12 := by
        rcases hc with hc | hc
        · omega
        · exact hc
      have hdrop : s.drop ((PNGEmbedder.readI32 s 0).toNat + 12) = [] := by
        apply List.drop_eq_nil_of_le
        omega
      rw [hdrop, stripPNGWalk_nil, List.append_nil]
  refine ⟨main total fuel s hguard hcorrupt, ?_⟩
  rw [WebCryptoUtils.stripPNGMetadata]
  have hblen : 21 ≤ b.length := by
    have := b.length_drop 8
    omega
  have hfuel : b.length + 1 = (b.length - 1) + 2 := by omega
  rw [hfuel, main b.length (b.length - 1) (b.drop 8) hbguard hbcorrupt]

/-- C4 witness: a 13-byte tail whose sole chunk claims 100 data bytes
(so the length exceeds the remainder), under a non-critical type
`AAAA`, and a whole buffer with the same forged chunk after the PNG
signature. -/
theorem stripPNG_aborts_on_corrupt_length_witness :
    WebCryptoUtils.stripPNGWalk 30 2 [0, 0, 0, 100, 65, 65, 65, 65, 1, 2, 3, 4, 5] = [] ∧
    WebCryptoUtils.stripPNGMetadata
      (PNGEmbedder.pngSignature ++ [0, 0, 0, 100, 65, 65, 65, 65, 1, 2, 3, 4, 5]) =
      PNGEmbedder.pngSignature := by
  have h := stripPNG_aborts_on_corrupt_length 30 0
    [0, 0, 0, 100, 65, 65, 65, 65, 1, 2, 3, 4, 5]
    (PNGEmbedder.pngSignature ++ [0, 0, 0, 100, 65, 65, 65, 65, 1, 2, 3, 4, 5])
    (by decide) (by decide) (by decide) (by decide)
  exact ⟨h.1.trans (by decide), h.2.trans (by decide)⟩

/-! ### C7 — strip idempotence -/

theorem stripJPEGLoop_nil (fuel : Nat) : WebCryptoUtils.stripJPEGLoop fuel [] = [] := by
  cases fuel <;> rfl

theorem stripJPEGLoop_tail (t : JTail) :
    ∀ fuel, (jtailBytes t).length < fuel →
      WebCryptoUtils.stripJPEGLoop fuel (jtailBytes t) = jtailBytes t := by
  cases t with
  | empty =>
    intro fuel _
    exact stripJPEGLoop_nil fuel
  | eoi =>
    intro fuel hfuel
    obtain ⟨f, rfl⟩ : ∃ f, fuel = f + 1 := ⟨fuel - 1, by simp [jtailBytes] at hfuel; omega⟩
    rw [jtailBytes, WebCryptoUtils.stripJPEGLoop]
    norm_num [byteAt, WebCryptoUtils.isKeepMarker, stripJPEGLoop_nil]
  | scan rest =>
    intro fuel hfuel
    obtain ⟨f, rfl⟩ : ∃ f, fuel = f + 1 := ⟨fuel - 1, by simp [jtailBytes] at hfuel; omega⟩
    rw [jtailBytes, WebCryptoUtils.stripJPEGLoop]
    rw [if_pos (by simp : 1 < (0xFF :: 0xDA :: rest : List Nat).length)]
    norm_num [byteAt, WebCryptoUtils.isKeepMarker]

/-- The marker walk keeps exactly the keep-marker segments of a
well-formed segment stream and copies the tail unchanged. -/
theorem stripJPEGLoop_segs (t : JTail) :
    ∀ (ss : List JSeg), (∀ s ∈ ss, wfSeg s) →
    ∀ fuel, (segsBytes ss ++ jtailBytes t).length < fuel →
      WebCryptoUtils.stripJPEGLoop fuel (segsBytes ss ++ jtailBytes t) =
        segsBytes (ss.filter fun s => WebCryptoUtils.isKeepMarker s.marker) ++
          jtailBytes t := by
  intro ss
  induction ss with
  | nil =>
    intro _ fuel hfuel
    simp only [segsBytes, List.nil_append, List.filter_nil]
    exact stripJPEGLoop_tail t fuel (by simpa [segsBytes] using hfuel)
  | cons s ss ih =>
    intro hwf fuel hfuel
    obtain ⟨⟨hb, hd8, hd9, hda, hlen⟩, hwf'⟩ :
        wfSeg s ∧ ∀ s' ∈ ss, wfSeg s' :=
      ⟨hwf s (List.mem_cons_self s ss), fun s' hs' => hwf s' (List.mem_cons_of_mem s hs')⟩
    obtain ⟨f, rfl⟩ : ∃ f, fuel = f + 1 := ⟨fuel - 1, by omega⟩
    set REST := segsBytes ss ++ jtailBytes t with hREST
    have hshape : segsBytes (s :: ss) ++ jtailBytes t =
        0xFF :: s.marker :: (((s.data.length + 2) >>> 8) &&& 0xFF) ::
          ((s.data.length + 2) &&& 0xFF) :: (s.data ++ REST) := by
      simp [segsBytes, encodeSeg, hREST, List.append_assoc]
    rw [hshape, WebCryptoUtils.stripJPEGLoop]
    rw [if_pos (by simp)]
    rw [if_pos (show (byteAt (0xFF :: s.marker :: (((s.data.length + 2) >>> 8) &&& 0xFF) ::
      ((s.data.length + 2) &&& 0xFF) :: (s.data ++ REST)) 0 == 0xFF) = true from rfl)]
    have hmarker : byteAt (0xFF :: s.marker :: (((s.data.length + 2) >>> 8) &&& 0xFF) ::
        ((s.data.length + 2) &&& 0xFF) :: (s.data ++ REST)) 1 = s.marker := rfl
    have hdecode : (byteAt (0xFF :: s.marker :: (((s.data.length + 2) >>> 8) &&& 0xFF) ::
        ((s.data.length + 2) &&& 0xFF) :: (s.data ++ REST)) 2 <<< 8) |||
        byteAt (0xFF :: s.marker :: (((s.data.length + 2) >>> 8) &&& 0xFF) ::
        ((s.data.length + 2) &&& 0xFF) :: (s.data ++ REST)) 3 = s.data.length + 2 :=
      be16_decode (by omega)
    have htake : ((0xFF :: s.marker :: (((s.data.length + 2) >>> 8) &&& 0xFF) ::
        ((s.data.length + 2) &&& 0xFF) :: (s.data ++ REST) : List Nat).drop 2).take
        (s.data.length + 2) =
        (((s.data.length + 2) >>> 8) &&& 0xFF) ::
          ((s.data.length + 2) &&& 0xFF) :: s.data := by
      show (((((s.data.length + 2) >>> 8) &&& 0xFF) ::
        ((s.data.length + 2) &&& 0xFF) :: s.data) ++ REST).take (s.data.length + 2) = _
      exact List.take_left' (by simp)
    have hdrop : ((0xFF :: s.marker :: (((s.data.length + 2) >>> 8) &&& 0xFF) ::
        ((s.data.length + 2) &&& 0xFF) :: (s.data ++ REST) : List Nat).drop 2).drop
        (s.data.length + 2) = REST := by
      show (((((s.data.length + 2) >>> 8) &&& 0xFF) ::
        ((s.data.length + 2) &&& 0xFF) :: s.data) ++ REST).drop (s.data.length + 2) = _
      exact List.drop_left' (by simp)
    have hrest : WebCryptoUtils.stripJPEGLoop f REST =
        segsBytes (ss.filter fun s' => WebCryptoUtils.isKeepMarker s'.marker) ++
          jtailBytes t := by
      apply ih hwf' f
      have : (segsBytes (s :: ss) ++ jtailBytes t).length =
          4 + s.data.length + REST.length := by
        simp [segsBytes, encodeSeg, hREST]
        omega
      omega
    by_cases hk : WebCryptoUtils.isKeepMarker s.marker = true
    · rw [hmarker, if_pos hk]
      rw [if_neg (show ¬(s.marker == 0xDA) = true from by simp [hda])]
      rw [if_pos (show ((s.marker != 0xD8) && (s.marker != 0xD9)) = true from by
        simp [hd8, hd9])]
      rw [if_pos (by simp : 4 ≤ (0xFF :: s.marker ::
        (((s.data.length + 2) >>> 8) &&& 0xFF) ::
        ((s.data.length + 2) &&& 0xFF) :: (s.data ++ REST) : List Nat).length)]
      rw [hdecode]
      simp only [htake, hdrop, hrest]
      simp [List.filter_cons, hk, segsBytes, encodeSeg, byteAt, List.append_assoc]
    · rw [hmarker, if_neg hk]
      rw [if_pos (by simp : 4 ≤ (0xFF :: s.marker ::
        (((s.data.length + 2) >>> 8) &&& 0xFF) ::
        ((s.data.length + 2) &&& 0xFF) :: (s.data ++ REST) : List Nat).length)]
      rw [hdecode]
      simp only [hdrop, hrest]
      simp [List.filter_cons, hk]

/-- `stripJPEGMetadata` on a well-formed JPEG keeps SOI, the keep-marker
segments, and the tail. -/
theorem stripJPEGMetadata_wf (ss : List JSeg) (t : JTail) (hwf : ∀ s ∈ ss, wfSeg s) :
    WebCryptoUtils.stripJPEGMetadata (0xFF :: 0xD8 :: (segsBytes ss ++ jtailBytes t)) =
      0xFF :: 0xD8 ::
        (segsBytes (ss.filter fun s => WebCryptoUtils.isKeepMarker s.marker) ++
          jtailBytes t) := by
  rw [WebCryptoUtils.stripJPEGMetadata]
  have h0 : byteAt (0xFF :: 0xD8 :: (segsBytes ss ++ jtailBytes t)) 0 = 0xFF := rfl
  have h1 : byteAt (0xFF :: 0xD8 :: (segsBytes ss ++ jtailBytes t)) 1 = 0xD8 := rfl
  have h2 : (0xFF :: 0xD8 :: (segsBytes ss ++ jtailBytes t) : List Nat).drop 2 =
      segsBytes ss ++ jtailBytes t := rfl
  rw [h0, h1, h2, stripJPEGLoop_segs t ss hwf _ (by simp; omega)]

theorem filter_keep_idem (ss : List JSeg) :
    (ss.filter fun s => WebCryptoUtils.isKeepMarker s.marker).filter
      (fun s => WebCryptoUtils.isKeepMarker s.marker) =
    ss.filter fun s => WebCryptoUtils.isKeepMarker s.marker := by
  rw [List.filter_filter]
  simp

/-! PNG side of C7. -/

theorem chunksBytes_append (l₁ l₂ : List PChunk) :
    chunksBytes (l₁ ++ l₂) = chunksBytes l₁ ++ chunksBytes l₂ := by
  induction l₁ with
  | nil => simp [chunksBytes]
  | cons c l ih => simp [chunksBytes, ih]

theorem chunk_data_le (cs : List PChunk) :
    ∀ c ∈ cs, c.data.length ≤ (chunksBytes cs).length := by
  induction cs with
  | nil => intro c hc; cases hc
  | cons c' cs ih =>
    intro c hc
    rcases List.mem_cons.mp hc with rfl | hc
    · simp only [chunksBytes, List.length_append]
      have : c.data.length ≤ (encodeChunk c).length := by
        simp [encodeChunk, PNGEmbedder.be32Bytes]
        omega
      omega
    · have := ih c hc
      simp only [chunksBytes, List.length_append]
      omega

theorem keptChunks_critical (cs : List PChunk) :
    ∀ c ∈ keptChunks cs, WebCryptoUtils.isCriticalChunk c.ty = true ∧ c ∈ cs := by
  match cs with
  | [] => intro c hc; cases hc
  | [c'] =>
    intro c hc
    rw [keptChunks] at hc
    split at hc
    · cases hc
    · split at hc
      · rename_i hcrit
        rcases List.mem_singleton.mp hc with rfl
        exact ⟨hcrit, List.mem_singleton.mpr rfl⟩
      · cases hc
  | c' :: c'' :: cs' =>
    intro c hc
    rw [keptChunks] at hc
    rcases List.mem_append.mp hc with hc | hc
    · split at hc
      · rename_i hcrit
        rcases List.mem_singleton.mp hc with rfl
        exact ⟨hcrit, List.mem_cons_self _ _⟩
      · cases hc
    · obtain ⟨h1, h2⟩ := keptChunks_critical (c'' :: cs') c hc
      exact ⟨h1, List.mem_cons_of_mem _ h2⟩

theorem readI32_zero_of_eq {b : List Nat} {n : Nat} {R : List Nat}
    (hb : b = PNGEmbedder.be32Bytes n ++ R) (h : n < 2 ^ 31) :
    PNGEmbedder.readI32 b 0 = (n : Int) := by
  have := readI32_at_of_drop (b := b) (o := 0) (by simpa using hb) h
  simpa using this

theorem chunkTypeAt_zero_of_eq {b : List Nat} {n t0 t1 t2 t3 : Nat} {R : List Nat}
    (hb : b = PNGEmbedder.be32Bytes n ++ (t0 :: t1 :: t2 :: t3 :: R)) :
    PNGEmbedder.chunkTypeAt b 0 = [t0, t1, t2, t3] := by
  have := chunkTypeAt_of_drop (b := b) (o := 0) (by simpa using hb)
  simpa using this

/-- The strip walk of a well-formed chunk sequence retains exactly
`keptChunks`. -/
theorem stripPNGWalk_chunks (total : Nat) :
    ∀ (cs : List PChunk), (∀ c ∈ cs, wfChunk c) →
      (∀ c ∈ cs, c.data.length ≤ total) →
    ∀ fuel, (chunksBytes cs).length < fuel →
      WebCryptoUtils.stripPNGWalk total fuel (chunksBytes cs) =
        chunksBytes (keptChunks cs) := by
  intro cs
  induction cs with
  | nil =>
    intro _ _ fuel _
    simp only [chunksBytes, keptChunks]
    exact stripPNGWalk_nil total fuel
  | cons c cs' ih =>
    intro hwf hle fuel hfuel
    obtain ⟨hty, hcrc, hlt⟩ := hwf c (List.mem_cons_self c cs')
    obtain ⟨t0, t1, t2, t3, hty4⟩ := list_length_eq_four hty
    have henclen : (encodeChunk c).length = c.data.length + 12 :=
      encodeChunk_length c ⟨hty, hcrc, hlt⟩
    have hdatale : c.data.length ≤ total := hle c (List.mem_cons_self c cs')
    have hshape : chunksBytes (c :: cs') =
        PNGEmbedder.be32Bytes c.data.length ++
          (t0 :: t1 :: t2 :: t3 :: (c.data ++ (c.crc ++ chunksBytes cs'))) := by
      simp [chunksBytes, encodeChunk, hty4, List.append_assoc]
    have hsplit : chunksBytes (c :: cs') = encodeChunk c ++ chunksBytes cs' := rfl
    have hcast12 : ((c.data.length : Int) + 12).toNat = c.data.length + 12 := by omega
    have hcastN : ((c.data.length : Int)).toNat = c.data.length := by omega
    have hsafety : ¬((c.data.length : Int) < 0 ∨ (total : Int) < (c.data.length : Int)) := by
      omega
    cases cs' with
    | nil =>
      obtain ⟨f, rfl⟩ : ∃ f, fuel = f + 1 := ⟨fuel - 1, by omega⟩
      rw [WebCryptoUtils.stripPNGWalk]
      by_cases hdata : c.data.length = 0
      · rw [if_neg (by
          simp only [hsplit, chunksBytes, List.append_nil, henclen, hdata]
          omega)]
        simp [keptChunks, hdata, chunksBytes]
      · rw [if_pos (by
          simp only [hsplit, chunksBytes, List.append_nil, henclen]
          omega)]
        rw [if_neg (by
          simp only [hsplit, chunksBytes, List.append_nil, henclen]
          omega)]
        rw [readI32_zero_of_eq (by simpa [chunksBytes, List.append_nil] using hshape) hlt,
          chunkTypeAt_zero_of_eq (by simpa [chunksBytes, List.append_nil] using hshape)]
        rw [if_neg hsafety]
        rw [hcast12, hcastN]
        have hdropnil : (chunksBytes [c]).drop (c.data.length + 12) = [] := by
          apply List.drop_eq_nil_of_le
          simp [hsplit, chunksBytes, henclen]
        rw [hdropnil, stripPNGWalk_nil, List.append_nil]
        have htakeall : (chunksBytes [c]).take (c.data.length + 12) = chunksBytes [c] := by
          apply List.take_of_length_le
          simp [hsplit, chunksBytes, henclen]
        rw [htakeall]
        rw [← hty4]
        simp only [keptChunks, if_neg hdata]
        by_cases hcrit : WebCryptoUtils.isCriticalChunk c.ty = true
        · simp [hcrit]
        · simp [hcrit, chunksBytes]
    | cons c2 cs'' =>
      obtain ⟨f, rfl⟩ : ∃ f, fuel = f + 1 := ⟨fuel - 1, by omega⟩
      have hrestlen : 12 ≤ (chunksBytes (c2 :: cs'')).length := by
        obtain ⟨hty2, hcrc2, hlt2⟩ := hwf c2 (List.mem_cons_of_mem c (List.mem_cons_self c2 cs''))
        have := encodeChunk_length c2 ⟨hty2, hcrc2, hlt2⟩
        simp only [chunksBytes, List.length_append]
        omega
      rw [WebCryptoUtils.stripPNGWalk]
      rw [if_pos (by
        rw [hsplit]
        simp only [List.length_append, henclen]
        omega)]
      rw [if_neg (by
        rw [hsplit]
        simp only [List.length_append, henclen]
        omega)]
      rw [readI32_zero_of_eq hshape hlt, chunkTypeAt_zero_of_eq hshape]
      rw [if_neg hsafety]
      rw [hcast12, hcastN]
      have hdroprest : (chunksBytes (c :: c2 :: cs'')).drop (c.data.length + 12) =
          chunksBytes (c2 :: cs'') := by
        rw [hsplit, ← henclen]
        exact List.drop_left _ _
      have htakeenc : (chunksBytes (c :: c2 :: cs'')).take (c.data.length + 12) =
          encodeChunk c := by
        rw [hsplit, ← henclen]
        exact List.take_left _ _
      rw [hdroprest, htakeenc]
      rw [ih (fun x hx => hwf x (List.mem_cons_of_mem c hx))
        (fun x hx => hle x (List.mem_cons_of_mem c hx)) f
        (by
          rw [hsplit] at hfuel
          simp only [List.length_append, henclen] at hfuel
          omega)]
      rw [← hty4]
      show _ = chunksBytes (keptChunks (c :: c2 :: cs''))
      rw [keptChunks, chunksBytes_append]
      by_cases hcrit : WebCryptoUtils.isCriticalChunk c.ty = true
      · simp [hcrit, chunksBytes]
      · simp [hcrit, chunksBytes]

/-- `stripPNGMetadata` on a well-formed PNG keeps the signature and
exactly the `keptChunks`. -/
theorem stripPNGMetadata_wf (cs : List PChunk) (hwf : ∀ c ∈ cs, wfChunk c) :
    WebCryptoUtils.stripPNGMetadata (PNGEmbedder.pngSignature ++ chunksBytes cs) =
      PNGEmbedder.pngSignature ++ chunksBytes (keptChunks cs) := by
  rw [WebCryptoUtils.stripPNGMetadata]
  have hfirst8 : (List.range 8).map
      (byteAt (PNGEmbedder.pngSignature ++ chunksBytes cs)) =
      PNGEmbedder.pngSignature := rfl
  have hdrop8 : (PNGEmbedder.pngSignature ++ chunksBytes cs).drop 8 =
      chunksBytes cs := List.drop_left' rfl
  have hlen : (PNGEmbedder.pngSignature ++ chunksBytes cs).length =
      8 + (chunksBytes cs).length := by
    simp [PNGEmbedder.pngSignature]
    omega
  rw [hfirst8, hdrop8, hlen]
  rw [stripPNGWalk_chunks (8 + (chunksBytes cs).length) cs hwf
    (fun c hc => le_trans (chunk_data_le cs c hc) (by omega))
    (8 + (chunksBytes cs).length + 1) (by omega)]

theorem keptChunks_eq_self (ds : List PChunk)
    (hcrit : ∀ c ∈ ds, WebCryptoUtils.isCriticalChunk c.ty = true)
    (hlast : ∀ c, ds.getLast? = some c → c.data ≠ []) :
    keptChunks ds = ds := by
  match ds with
  | [] => rfl
  | [c] =>
    rw [keptChunks]
    rw [if_neg (by
      have := hlast c rfl
      simp only [ne_eq, ← List.length_eq_zero] at this
      exact this)]
    rw [if_pos (hcrit c (List.mem_singleton.mpr rfl))]
  | c :: c' :: ds' =>
    rw [keptChunks]
    rw [if_pos (hcrit c (List.mem_cons_self _ _))]
    rw [keptChunks_eq_self (c' :: ds')
      (fun x hx => hcrit x (List.mem_cons_of_mem _ hx))
      (fun x hx => hlast x (by rwa [List.getLast?_cons_cons]))]
    rfl

/-- C7 counterexample: stripping is not idempotent for either format on
all buffers.  JPEG: a DQT segment whose length field claims one byte
strips to a buffer the second pass truncates further.  PNG: a
well-formed PNG whose only retained chunk (a zero-data-length IDAT)
survives the first pass but sits exactly on the second pass's loop
guard and is dropped. -/
theorem strip_not_idempotent :
    (WebCryptoUtils.stripJPEGMetadata (WebCryptoUtils.stripJPEGMetadata
        [0xFF, 0xD8, 0xFF, 0xDB, 0x00, 0x01]) ≠
      WebCryptoUtils.stripJPEGMetadata [0xFF, 0xD8, 0xFF, 0xDB, 0x00, 0x01]) ∧
    (WebCryptoUtils.stripPNGMetadata (WebCryptoUtils.stripPNGMetadata
        [0x89, 0x50, 0x4E, 0x47, 0x0D, 0x0A, 0x1A, 0x0A,
         0, 0, 0, 0, 0x49, 0x44, 0x41, 0x54, 9, 9, 9, 9,
         0, 0, 0, 0, 0x49, 0x45, 0x4E, 0x44, 8, 8, 8, 8]) ≠
      WebCryptoUtils.stripPNGMetadata
        [0x89, 0x50, 0x4E, 0x47, 0x0D, 0x0A, 0x1A, 0x0A,
         0, 0, 0, 0, 0x49, 0x44, 0x41, 0x54, 9, 9, 9, 9,
         0, 0, 0, 0, 0x49, 0x45, 0x4E, 0x44, 8, 8, 8, 8]) := by
  decide

/-- C7 amended: strip is idempotent on structurally well-formed
containers, with one PNG proviso: for a JPEG that is SOI followed by
well-formed marker segments and a well-formed tail,
`strip(strip(b)) = strip(b)`; for a PNG that is the signature followed
by well-formed chunks, the same holds provided the last chunk the walk
retains has nonzero data length (a retained final zero-length chunk is
dropped only by the second pass, as the counterexample shows).  For
arbitrary corrupt buffers idempotence fails for both formats. -/
theorem strip_idempotent_wellformed (ss : List JSeg) (t : JTail) (cs : List PChunk)
    (hss : ∀ s ∈ ss, wfSeg s) (hcs : ∀ c ∈ cs, wfChunk c)
    (hlast : ∀ c, (keptChunks cs).getLast? = some c → c.data ≠ []) :
    WebCryptoUtils.stripJPEGMetadata (WebCryptoUtils.stripJPEGMetadata
        (0xFF :: 0xD8 :: (segsBytes ss ++ jtailBytes t))) =
      WebCryptoUtils.stripJPEGMetadata
        (0xFF :: 0xD8 :: (segsBytes ss ++ jtailBytes t)) ∧
    WebCryptoUtils.stripPNGMetadata (WebCryptoUtils.stripPNGMetadata
        (PNGEmbedder.pngSignature ++ chunksBytes cs)) =
      WebCryptoUtils.stripPNGMetadata
        (PNGEmbedder.pngSignature ++ chunksBytes cs) := by
  constructor
  · rw [stripJPEGMetadata_wf ss t hss,
      stripJPEGMetadata_wf _ t (fun s hs => hss s (List.mem_of_mem_filter hs)),
      filter_keep_idem]
  · have hkeptwf : ∀ c ∈ keptChunks cs, wfChunk c :=
      fun c hc => hcs c ((keptChunks_critical cs c hc).2)
    rw [stripPNGMetadata_wf cs hcs,
      stripPNGMetadata_wf (keptChunks cs) hkeptwf,
      keptChunks_eq_self (keptChunks cs)
        (fun c hc => (keptChunks_critical cs c hc).1) hlast]

/-- C7 amended witness: a JPEG with one DQT segment and an EOI tail, and
a PNG with an IHDR chunk (three data bytes) followed by IEND. -/
theorem strip_idempotent_wellformed_witness :
    WebCryptoUtils.stripJPEGMetadata (WebCryptoUtils.stripJPEGMetadata
        (0xFF :: 0xD8 :: (segsBytes [⟨0xDB, [1, 2]⟩] ++ jtailBytes .eoi))) =
      WebCryptoUtils.stripJPEGMetadata
        (0xFF :: 0xD8 :: (segsBytes [⟨0xDB, [1, 2]⟩] ++ jtailBytes .eoi)) ∧
    WebCryptoUtils.stripPNGMetadata (WebCryptoUtils.stripPNGMetadata
        (PNGEmbedder.pngSignature ++ chunksBytes
          [⟨[0x49, 0x48, 0x44, 0x52], [1, 2, 3], [9, 9, 9, 9]⟩,
           ⟨[0x49, 0x45, 0x4E, 0x44], [], [8, 8, 8, 8]⟩])) =
      WebCryptoUtils.stripPNGMetadata
        (PNGEmbedder.pngSignature ++ chunksBytes
          [⟨[0x49, 0x48, 0x44, 0x52], [1, 2, 3], [9, 9, 9, 9]⟩,
           ⟨[0x49, 0x45, 0x4E, 0x44], [], [8, 8, 8, 8]⟩]) :=
  strip_idempotent_wellformed [⟨0xDB, [1, 2]⟩] .eoi
    [⟨[0x49, 0x48, 0x44, 0x52], [1, 2, 3], [9, 9, 9, 9]⟩,
     ⟨[0x49, 0x45, 0x4E, 0x44], [], [8, 8, 8, 8]⟩]
    (by decide) (by decide)
    (by
      intro c hc
      have he : (keptChunks
          [⟨[0x49, 0x48, 0x44, 0x52], [1, 2, 3], [9, 9, 9, 9]⟩,
           ⟨[0x49, 0x45, 0x4E, 0x44], [], [8, 8, 8, 8]⟩]).getLast? =
          some ⟨[0x49, 0x48, 0x44, 0x52], [1, 2, 3], [9, 9, 9, 9]⟩ := rfl
      rw [he] at hc
      injection hc with h
      subst h
      simp)

/-! ### C1 — untrusted-certificate verdict shape -/

/-- C1 counterexample: with an empty trust store (so the embedded
fingerprint matches nothing), the verifier's early return carries no
`overallStatus` (in particular not `"failed"`) and no `trustIssues`
list, contradicting the claim that the remaining checks still run and
accumulate `"Certificate not in trust store"`. -/
theorem verify_untrusted_no_overallStatus :
    (TrustVerifier.verifyCertification
      { certFingerprint := some "ABCD", signature := some [1],
        timestamp := some "2024-01-01T00:00:00Z" }
      [] (some { certFingerprint := some "ABCD", signature := some [1],
                 timestamp := some "2024-01-01T00:00:00Z" }) 0).overallStatus ≠
      some "failed" ∧
    (TrustVerifier.verifyCertification
      { certFingerprint := some "ABCD", signature := some [1],
        timestamp := some "2024-01-01T00:00:00Z" }
      [] (some { certFingerprint := some "ABCD", signature := some [1],
                 timestamp := some "2024-01-01T00:00:00Z" }) 0).trustIssues = none := by
  decide

/-- C1 amended: when the embedded fingerprint matches no trust-store
entry, `verifyCertification` returns early with
`trusted = false`, `valid = false`, `validPeriod = false`,
`signatureValid = false`, `imageHashValid = false` and
`details.error = "Certificate not found in trust store"`; the remaining
checks are skipped, so the verdict carries no `overallStatus` and no
`trustIssues` list. -/
theorem verify_untrusted_early_return (cd : TrustVerifier.CertData)
    (store : List TrustVerifier.StoredCert)
    (reExtracted : Option TrustVerifier.CertData) (now : Int)
    (hfind : store.find? (fun tc =>
      match tc.fingerprintSha256 with
      | some s => some s == cd.certFingerprint
      | none => false) = none) :
    TrustVerifier.verifyCertification cd store reExtracted now =
      { valid := some false, trusted := false, validPeriod := some false,
        signatureValid := false, imageHashValid := false,
        detailsError := some "Certificate not found in trust store" } := by
  simp only [TrustVerifier.verifyCertification, hfind]

/-- C1 amended witness: the empty trust store triggers the early
return. -/
theorem verify_untrusted_early_return_witness :
    TrustVerifier.verifyCertification
      { certFingerprint := some "ABCD" } [] none 0 =
      { valid := some false, trusted := false, validPeriod := some false,
        signatureValid := false, imageHashValid := false,
        detailsError := some "Certificate not found in trust store" } :=
  verify_untrusted_early_return { certFingerprint := some "ABCD" } [] none 0 rfl
